import Mathlib

/-!
Shallow embedding of the neutronpy core module (src/neutronpy/core.py): the
Data point-cloud class with its derived intensity, tolerance-based merge
(combine_data), background estimation (bg_estimate), rectilinear rebinning
(bin / _bin_parallel) and integrated intensity (integrate).

Numeric model: numpy float64 values are modelled as rationals. Elementwise
numpy operations on equal-length arrays are zipWith/map; the claims under
consideration only exercise equal-length data, and length hypotheses are
stated where the translation relies on them. np.lexsort is a stable sort of
the row indices by the designated key columns; it is modelled by
List.insertionSort of the index list (stable, like numpy). np.searchsorted on
an array sorted by the probed column returns, for side left, the number of
entries strictly below the probe and, for side right, the number of entries
at most the probe; it is modelled by countP over the sorted rows.
-/

namespace NeutronPy

/-- A row of the Q matrix: the five columns h, k, l, e, temp in that order. -/
abbrev QRow := List ℚ

/-- The Data class state (core.py lines 18-96): the Q matrix, the per-point
detector, monitor and time arrays, the reference scalars m0 and t0, and the
time_norm flag. -/
structure Data where
  Q : List QRow
  detector : List ℚ
  monitor : List ℚ
  time : List ℚ
  m0 : ℚ
  t0 : ℚ
  time_norm : Bool
deriving DecidableEq

/-- np.nanmax over a stored array: the maximum element. numpy raises on an
empty array, which no claim exercises; the empty case here returns 0. -/
def npNanmax (l : List ℚ) : ℚ :=
  match l with
  | [] => 0
  | x :: xs => xs.foldl max x

/-- Python min over the intensity array (used by bg_estimate); numpy raises on
an empty sequence, modelled by none. -/
def listMin (l : List ℚ) : Option ℚ :=
  match l with
  | [] => none
  | x :: xs => some (xs.foldl min x)

theorem le_foldl_max_init : ∀ (xs : List ℚ) (a : ℚ), a ≤ xs.foldl max a := by
  intro xs
  induction xs with
  | nil => intro a; exact le_refl a
  | cons y ys ih =>
      intro a
      exact le_trans (le_max_left a y) (ih (max a y))

theorem le_foldl_max_mem : ∀ (xs : List ℚ) (a x : ℚ), x ∈ xs → x ≤ xs.foldl max a := by
  intro xs
  induction xs with
  | nil => intro a x hx; cases hx
  | cons y ys ih =>
      intro a x hx
      rcases List.mem_cons.mp hx with h | h
      · subst h
        exact le_trans (le_max_right a x) (le_foldl_max_init ys (max a x))
      · exact ih (max a y) x h

theorem foldl_max_mem : ∀ (xs : List ℚ) (a : ℚ), xs.foldl max a = a ∨ xs.foldl max a ∈ xs := by
  intro xs
  induction xs with
  | nil => intro a; exact Or.inl rfl
  | cons y ys ih =>
      intro a
      rcases ih (max a y) with h | h
      · rcases max_choice a y with hm | hm
        · exact Or.inl (by rw [List.foldl_cons, h, hm])
        · exact Or.inr (by rw [List.foldl_cons, h, hm]; exact List.mem_cons_self y ys)
      · exact Or.inr (List.mem_cons_of_mem y h)

theorem npNanmax_mem (l : List ℚ) (h : l ≠ []) : npNanmax l ∈ l := by
  cases l with
  | nil => exact absurd rfl h
  | cons x xs =>
      rcases foldl_max_mem xs x with hc | hc
      · rw [npNanmax, hc]; exact List.mem_cons_self x xs
      · exact List.mem_cons_of_mem x hc

theorem le_npNanmax (l : List ℚ) (x : ℚ) (hx : x ∈ l) : x ≤ npNanmax l := by
  cases l with
  | nil => cases hx
  | cons y ys =>
      rcases List.mem_cons.mp hx with h | h
      · subst h; exact le_foldl_max_init ys x
      · exact le_foldl_max_mem ys y x h

theorem foldl_min_init_le : ∀ (xs : List ℚ) (a : ℚ), xs.foldl min a ≤ a := by
  intro xs
  induction xs with
  | nil => intro a; exact le_refl a
  | cons y ys ih =>
      intro a
      exact le_trans (ih (min a y)) (min_le_left a y)

theorem foldl_min_le_mem : ∀ (xs : List ℚ) (a x : ℚ), x ∈ xs → xs.foldl min a ≤ x := by
  intro xs
  induction xs with
  | nil => intro a x hx; cases hx
  | cons y ys ih =>
      intro a x hx
      rcases List.mem_cons.mp hx with h | h
      · subst h
        exact le_trans (foldl_min_init_le ys (min a x)) (min_le_right a x)
      · exact ih (min a y) x h

theorem foldl_min_mem : ∀ (xs : List ℚ) (a : ℚ), xs.foldl min a = a ∨ xs.foldl min a ∈ xs := by
  intro xs
  induction xs with
  | nil => intro a; exact Or.inl rfl
  | cons y ys ih =>
      intro a
      rcases ih (min a y) with h | h
      · rcases min_choice a y with hm | hm
        · exact Or.inl (by rw [List.foldl_cons, h, hm])
        · exact Or.inr (by rw [List.foldl_cons, h, hm]; exact List.mem_cons_self y ys)
      · exact Or.inr (List.mem_cons_of_mem y h)

theorem listMin_mem (l : List ℚ) (m : ℚ) (h : listMin l = some m) : m ∈ l := by
  cases l with
  | nil => cases h
  | cons x xs =>
      have hm : xs.foldl min x = m := by
        have := h
        simp only [listMin, Option.some.injEq] at this
        exact this
      rcases foldl_min_mem xs x with hc | hc
      · rw [hm] at hc; rw [← hc]; exact List.mem_cons_self m xs
      · rw [hm] at hc; exact List.mem_cons_of_mem x hc

theorem listMin_le (l : List ℚ) (m : ℚ) (h : listMin l = some m) :
    ∀ x ∈ l, m ≤ x := by
  cases l with
  | nil => cases h
  | cons y ys =>
      have hm : ys.foldl min y = m := by
        have := h
        simp only [listMin, Option.some.injEq] at this
        exact this
      intro x hx
      rcases List.mem_cons.mp hx with hc | hc
      · subst hc; rw [← hm]; exact foldl_min_init_le ys x
      · rw [← hm]; exact foldl_min_le_mem ys y x hc

/-- The intensity property getter (core.py lines 209-233). When time_norm is
set, a zero t0 is first replaced by nanmax(time) and detector/time*t0 is
returned; otherwise a zero m0 is first replaced by nanmax(monitor) and
detector/monitor*m0 is returned. The source mutates self.m0 or self.t0 as it
recomputes; the first component of the result is the updated object. -/
def Data.intensityState (d : Data) : Data × List ℚ :=
  if d.time_norm then
    let t0 := if d.t0 = 0 then npNanmax d.time else d.t0
    (⟨d.Q, d.detector, d.monitor, d.time, d.m0, t0, d.time_norm⟩,
      List.zipWith (fun det t => det / t * t0) d.detector d.time)
  else
    let m0 := if d.m0 = 0 then npNanmax d.monitor else d.m0
    (⟨d.Q, d.detector, d.monitor, d.time, m0, d.t0, d.time_norm⟩,
      List.zipWith (fun det mon => det / mon * m0) d.detector d.monitor)

/-- The array returned by a read of the intensity property. -/
def Data.intensity (d : Data) : List ℚ :=
  d.intensityState.2

/-- The bg_params dictionary passed to bg_estimate: a type tag and a value. -/
structure BgParams where
  type : String
  value : ℚ
deriving DecidableEq

def percentError : String :=
  "TypeError: ndarray is not a context manager"

def emptyMinError : String :=
  "ValueError: min of an empty sequence"

/-- Data.bg_estimate (core.py lines 470-500). The constant branch returns the
value as-is; the percent branch executes a with-statement on the numpy array
self.intensity[self.intensity >= 0.], and an ndarray is not a context manager,
so that branch raises at runtime, modelled as an error; the minimum branch
returns min(self.intensity), which raises on an empty sequence; any other type
tag returns 0. -/
def Data.bg_estimate (d : Data) (bg_params : BgParams) : Except String ℚ :=
  if bg_params.type = "constant" then .ok bg_params.value
  else if bg_params.type = "percent" then .error percentError
  else if bg_params.type = "minimum" then
    match listMin d.intensity with
    | some m => .ok m
    | none => .error emptyMinError
  else .ok 0

/-- A constructor argument that is either a python scalar or an array. -/
inductive NumOrArr where
  | num (x : ℚ)
  | arr (l : List ℚ)
deriving DecidableEq

def lenOf : NumOrArr → Option Nat
  | .num _ => none
  | .arr l => some l.length

/-- n_dim in Data.__init__ (core.py lines 68-71): the maximum length among the
non-scalar arguments; max of an empty list raises ValueError, which is caught
and n_dim becomes 1. -/
def nDim (items : List NumOrArr) : Nat :=
  match items.filterMap lenOf with
  | [] => 1
  | x :: xs => xs.foldl max x

def shapeError : String :=
  "ValueError: could not broadcast input array"

def nDimError : String :=
  "NameError: name n_dim is not defined"

/-- Assignment of one constructor argument into a Q column of length nd, via
the h/k/l/e/temp setters (core.py lines 130-207): a scalar is replicated to
length nd; an array of length nd is taken as-is; numpy broadcasting also
accepts a length-1 array, replicating it; any other length raises ValueError. -/
def setCol (nd : Nat) : NumOrArr → Except String (List ℚ)
  | .num x => .ok (List.replicate nd x)
  | .arr l =>
    if l.length = nd then .ok l
    else if l.length = 1 then .ok (List.replicate nd (l.headD 0))
    else .error shapeError

/-- The Q matrix rows assembled from the five columns. -/
def rowsOfCols (nd : Nat) (c0 c1 c2 c3 c4 : List ℚ) : List QRow :=
  (List.range nd).map fun i =>
    [c0.getD i 0, c1.getD i 0, c2.getD i 0, c3.getD i 0, c4.getD i 0]

/-- Data.__init__ without the files path (core.py lines 63-96). When Q is not
given, n_dim is computed and the five axis arguments are broadcast into the Q
columns; when Q is given, the Q branch never assigns n_dim, so replicating a
scalar detector, monitor or time argument raises NameError. m0 and t0 default
to nanmax of monitor and time; keyword arguments m0, t0 and time_norm
override the defaults afterwards. -/
def dataInit (h k l e temp detector monitor time : NumOrArr)
    (Qopt : Option (List QRow)) (m0opt t0opt : Option ℚ) (timeNormOpt : Option Bool) :
    Except String Data := do
  let QandDim : List QRow × Option Nat ←
    match Qopt with
    | none => do
        let nd := nDim [h, k, l, e, temp, detector, monitor, time]
        let hc ← setCol nd h
        let kc ← setCol nd k
        let lc ← setCol nd l
        let ec ← setCol nd e
        let tc ← setCol nd temp
        pure (rowsOfCols nd hc kc lc ec tc, some nd)
    | some Q => pure (Q, none)
  let perPoint : NumOrArr → Except String (List ℚ) := fun a =>
    match a with
    | .num x =>
        match QandDim.2 with
        | some nd => .ok (List.replicate nd x)
        | none => .error nDimError
    | .arr l => .ok l
  let det ← perPoint detector
  let mon ← perPoint monitor
  let tim ← perPoint time
  pure ⟨QandDim.1, det, mon, tim, m0opt.getD (npNanmax mon), t0opt.getD (npNanmax tim),
    timeNormOpt.getD false⟩

theorem getD_zipWith (f : ℚ → ℚ → ℚ) :
    ∀ (as bs : List ℚ) (i : Nat), i < as.length → i < bs.length →
      (List.zipWith f as bs).getD i 0 = f (as.getD i 0) (bs.getD i 0) := by
  intro as
  induction as with
  | nil => intro bs i hi _; cases hi
  | cons a at' ih =>
      intro bs i hi hbi
      cases bs with
      | nil => cases hbi
      | cons b bt =>
          cases i with
          | zero => rfl
          | succ n =>
              have h1 : n < at'.length := Nat.lt_of_succ_lt_succ hi
              have h2 : n < bt.length := Nat.lt_of_succ_lt_succ hbi
              simpa using ih bt n h1 h2

/-- A concrete cloud, as produced by Data(h=[1, 2], detector=[-1, 4],
monitor=[1, 1], time=[0, 0]): its intensities are [-1, 4]. -/
def negCloud : Data :=
  ⟨[[1, 0, 0, 0, 0], [2, 0, 0, 0, 0]], [-1, 4], [1, 1], [0, 0], 1, 0, false⟩

/-- C3: reading intensity returns detector/monitor*m0 when time_norm is false
and detector/time*t0 when time_norm is true; a reference that is zero at the
time of the read is first recomputed as the maximum of the corresponding
stored array (nanmax) before being used. The last two conjuncts state that
the recomputed reference is indeed the maximum of the stored array. -/
theorem intensity_normalization (d : Data) (i : Nat)
    (hmon : d.monitor.length = d.detector.length)
    (htim : d.time.length = d.detector.length)
    (hi : i < d.detector.length) :
    (d.time_norm = false →
      d.intensity.getD i 0 =
        d.detector.getD i 0 / d.monitor.getD i 0 *
          (if d.m0 = 0 then npNanmax d.monitor else d.m0)) ∧
    (d.time_norm = true →
      d.intensity.getD i 0 =
        d.detector.getD i 0 / d.time.getD i 0 *
          (if d.t0 = 0 then npNanmax d.time else d.t0)) ∧
    (d.monitor ≠ [] →
      npNanmax d.monitor ∈ d.monitor ∧ ∀ x ∈ d.monitor, x ≤ npNanmax d.monitor) ∧
    (d.time ≠ [] →
      npNanmax d.time ∈ d.time ∧ ∀ x ∈ d.time, x ≤ npNanmax d.time) := by
  refine ⟨?_, ?_, ?_, ?_⟩
  · intro hnorm
    simp only [Data.intensity, Data.intensityState, hnorm, if_false, Bool.false_eq_true]
    exact getD_zipWith _ d.detector d.monitor i hi (hmon ▸ hi)
  · intro hnorm
    simp only [Data.intensity, Data.intensityState, hnorm, if_true]
    exact getD_zipWith _ d.detector d.time i hi (htim ▸ hi)
  · intro hne
    exact ⟨npNanmax_mem d.monitor hne, fun x hx => le_npNanmax d.monitor x hx⟩
  · intro hne
    exact ⟨npNanmax_mem d.time hne, fun x hx => le_npNanmax d.time x hx⟩

/-- C3 witness: the first clause of intensity_normalization at a concrete
cloud: the intensity of negCloud at index 1 is 4/1*1 = 4. -/
theorem intensity_normalization_witness :
    negCloud.intensity.getD 1 0 =
      negCloud.detector.getD 1 0 / negCloud.monitor.getD 1 0 *
        (if negCloud.m0 = 0 then npNanmax negCloud.monitor else negCloud.m0) :=
  (intensity_normalization negCloud 1 (by decide) (by decide) (by decide)).1 (by decide)

/-- C7 counterexample: on the cloud with intensities [-1, 4] the minimum branch
of bg_estimate returns -1, the plain minimum over all intensities, while the
minimum non-negative intensity of that cloud is 4. -/
theorem bg_minimum_counterexample :
    negCloud.bg_estimate ⟨"minimum", 0⟩ = .ok (-1) ∧
    listMin (negCloud.intensity.filter fun x => decide (0 ≤ x)) = some 4 ∧
    (-1 : ℚ) ≠ 4 := by
  have hint : negCloud.intensity = [-1, 4] := by
    norm_num [negCloud, Data.intensity, Data.intensityState]
  refine ⟨?_, ?_, by norm_num⟩
  · simp only [Data.bg_estimate, hint]
    norm_num [listMin]
    rfl
  · rw [hint]
    norm_num [listMin]

/-- C7 amended: bg_estimate with type constant returns the supplied value
unchanged; with type minimum it returns the minimum over all intensities,
negative ones included, whenever the cloud has at least one intensity; with
any type other than constant, percent and minimum it returns zero. -/
theorem bg_estimate_dispatch (d : Data) (v : ℚ) (t : String)
    (hne : d.intensity ≠ [])
    (ht1 : t ≠ "constant") (ht2 : t ≠ "percent") (ht3 : t ≠ "minimum") :
    d.bg_estimate ⟨"constant", v⟩ = .ok v ∧
    (∃ m, d.bg_estimate ⟨"minimum", 0⟩ = .ok m ∧ m ∈ d.intensity ∧
      ∀ x ∈ d.intensity, m ≤ x) ∧
    d.bg_estimate ⟨t, v⟩ = .ok 0 := by
  refine ⟨rfl, ?_, ?_⟩
  · cases hl : d.intensity with
    | nil => exact absurd hl hne
    | cons x xs =>
        refine ⟨xs.foldl min x, ?_, ?_, ?_⟩
        · simp only [Data.bg_estimate, hl]
          rfl
        · exact listMin_mem (x :: xs) (xs.foldl min x) rfl
        · exact listMin_le (x :: xs) (xs.foldl min x) rfl
  · simp only [Data.bg_estimate, if_neg ht1, if_neg ht2, if_neg ht3]

/-- C7 amended witness: bg_estimate_dispatch applied to the concrete cloud
negCloud with the unrecognized type tag other. -/
theorem bg_estimate_dispatch_witness :
    negCloud.bg_estimate ⟨"constant", 5⟩ = .ok 5 ∧
    (∃ m, negCloud.bg_estimate ⟨"minimum", 0⟩ = .ok m ∧ m ∈ negCloud.intensity ∧
      ∀ x ∈ negCloud.intensity, m ≤ x) ∧
    negCloud.bg_estimate ⟨"other", 5⟩ = .ok 0 :=
  bg_estimate_dispatch negCloud 5 "other" (by decide) (by decide) (by decide) (by decide)

/-- C8: the percent branch of bg_estimate executes a with-statement on the
numpy array of non-negative intensities; an ndarray is not a context manager,
so every percent call raises instead of returning the average of the lowest
p% of the non-negative intensities. -/
theorem bg_percent_raises (d : Data) (v : ℚ) :
    d.bg_estimate ⟨"percent", v⟩ = .error percentError := rfl

/-- C9: constructing a Data object from a pre-built Q matrix with detector,
monitor and time left at their scalar defaults raises NameError, because the
Q branch of __init__ never assigns n_dim and the per-point loop replicates a
scalar to length n_dim; the construction does not succeed with zero arrays. -/
theorem init_prebuilt_Q_defaults_raise (Q : List QRow) :
    dataInit (.num 0) (.num 0) (.num 0) (.num 0) (.num 0) (.num 0) (.num 0) (.num 0)
      (some Q) none none none = .error nDimError := rfl

/-- The incoming mapping passed to combine_data: the Q matrix and the
detector, monitor and time arrays. -/
structure ArgSet where
  Q : List QRow
  detector : List ℚ
  monitor : List ℚ
  time : List ℚ
deriving DecidableEq

/-- The default per-axis tolerance vector, 5e-4 per axis (core.py line 430). -/
def defaultTols : List ℚ := [5/10000, 5/10000, 5/10000, 5/10000, 5/10000]

/-- The match test np.all(np.abs(self.Q[j] - arg.Q[i]) <= tols) over the five
columns (core.py line 442). -/
def withinTols (selfRow argRow : QRow) (tols : List ℚ) : Bool :=
  (List.range 5).all fun c =>
    decide (|selfRow.getD c 0 - argRow.getD c 0| ≤ tols.getD c 0)

/-- The combine list built by the nested loops (core.py lines 439-443): the
pairs (i, j) with incoming index i and existing index j that are within
tolerance on all five axes, i outermost, both ascending. -/
def matchPairs (selfQ argQ : List QRow) (tols : List ℚ) : List (Nat × Nat) :=
  (List.range argQ.length).flatMap fun i =>
    (List.range selfQ.length).filterMap fun j =>
      if withinTols (selfQ.getD j []) (argQ.getD i []) tols then some (i, j) else none

/-- The accumulation loop (core.py lines 445-448): for each pair (i, j) in
order, base[j] += vals[i]. -/
def accumulate (base vals : List ℚ) (pairs : List (Nat × Nat)) : List ℚ :=
  pairs.foldl (fun acc p => acc.set p.2 (acc.getD p.2 0 + vals.getD p.1 0)) base

/-- np.delete(l, idxs, 0) (core.py line 452): the rows of l whose position is
not listed in idxs, kept in order. -/
def npDeleteRows {α : Type} (l : List α) (idxs : List Nat) (dflt : α) : List α :=
  (List.range l.length).filterMap fun i =>
    if i ∈ idxs then none else some (l.getD i dflt)

/-- Lexicographic comparison of two Q rows by the columns listed in cols, most
significant column first; equal rows compare true. -/
def lexLeCols (cols : List Nat) (a b : QRow) : Bool :=
  match cols with
  | [] => true
  | c :: rest =>
    if a.getD c 0 < b.getD c 0 then true
    else if b.getD c 0 < a.getD c 0 then false
    else lexLeCols rest a b

/-- np.lexsort over the rows of Q with the columns listed in cols as keys,
most significant first: the stably sorted list of row indices. numpy performs
an indirect stable sort; insertionSort is stable in the same sense, keeping
earlier indices before later indices with an equal key. -/
def npLexsortIdx (cols : List Nat) (Q : List QRow) : List Nat :=
  List.insertionSort (fun i j => lexLeCols cols (Q.getD i []) (Q.getD j []) = true)
    (List.range Q.length)

/-- Fancy indexing arr[order]. -/
def applyOrder {α : Type} (dflt : α) (order : List Nat) (l : List α) : List α :=
  order.map fun i => l.getD i dflt

/-- The in-place mutation of the incoming dictionary (core.py lines 450-452):
when the combine list is non-empty, the rows at its incoming indices are
deleted from each of the four entries of the dictionary. -/
def argDeleted (selfQ : List QRow) (tols : List ℚ) (arg : ArgSet) : ArgSet :=
  if matchPairs selfQ arg.Q tols = [] then arg
  else
    ⟨npDeleteRows arg.Q ((matchPairs selfQ arg.Q tols).map Prod.fst) [],
      npDeleteRows arg.detector ((matchPairs selfQ arg.Q tols).map Prod.fst) 0,
      npDeleteRows arg.monitor ((matchPairs selfQ arg.Q tols).map Prod.fst) 0,
      npDeleteRows arg.time ((matchPairs selfQ arg.Q tols).map Prod.fst) 0⟩

/-- One iteration of the args loop of combine_data (core.py lines 438-457).
selfQ is self.Q, the matrix the loop matches against (it is not updated inside
the loop); acc carries the working copies Q, detector, monitor, time that are
accumulated into and then extended by concatenation with the mutated incoming
entries; the second component is the mutated incoming dictionary itself. -/
def combineStep (selfQ : List QRow) (tols : List ℚ) (acc arg : ArgSet) :
    ArgSet × ArgSet :=
  (⟨acc.Q ++ (argDeleted selfQ tols arg).Q,
    accumulate acc.detector arg.detector (matchPairs selfQ arg.Q tols) ++
      (argDeleted selfQ tols arg).detector,
    accumulate acc.monitor arg.monitor (matchPairs selfQ arg.Q tols) ++
      (argDeleted selfQ tols arg).monitor,
    accumulate acc.time arg.time (matchPairs selfQ arg.Q tols) ++
      (argDeleted selfQ tols arg).time⟩,
    argDeleted selfQ tols arg)

/-- The args loop of combine_data: fold the incoming sets into the working
copies, matching every set against the original self.Q, and collect the
mutated incoming dictionaries. -/
def combineCore (d : Data) (args : List ArgSet) (tols : List ℚ) :
    ArgSet × List ArgSet :=
  args.foldl
    (fun st arg =>
      let next := combineStep d.Q tols st.1 arg
      (next.1, st.2 ++ [next.2]))
    (⟨d.Q, d.detector, d.monitor, d.time⟩, [])

/-- The final lexicographic sort of combine_data (core.py line 459): the
argsort of the rows with column 0 as the primary key, then columns 1, 2, 3, 4,
applied to all four arrays. -/
def sortByQ (a : ArgSet) : ArgSet :=
  let order := npLexsortIdx [0, 1, 2, 3, 4] a.Q
  ⟨applyOrder [] order a.Q, applyOrder 0 order a.detector,
    applyOrder 0 order a.monitor, applyOrder 0 order a.time⟩

/-- Data.combine_data (core.py lines 407-468). tols defaults to 5e-4 per axis.
With ret the sorted arrays are passed to the Data constructor, which resets m0
and t0 to the maxima of the merged monitor and time and time_norm to False;
without ret they replace the arrays of the receiver in place. The second
component collects the incoming dictionaries as mutated by the call. -/
def Data.combine_data (d : Data) (args : List ArgSet) (tols : Option (List ℚ))
    (ret : Bool) : Data × List ArgSet :=
  let merged := combineCore d args (tols.getD defaultTols)
  let s := sortByQ merged.1
  if ret then
    (⟨s.Q, s.detector, s.monitor, s.time, npNanmax s.monitor, npNanmax s.time, false⟩,
      merged.2)
  else
    (⟨s.Q, s.detector, s.monitor, s.time, d.m0, d.t0, d.time_norm⟩, merged.2)

theorem lexLeCols_cons_lt (c : Nat) (rest : List Nat) (a b : QRow)
    (h : a.getD c 0 < b.getD c 0) : lexLeCols (c :: rest) a b = true := by
  show (if a.getD c 0 < b.getD c 0 then true
    else if b.getD c 0 < a.getD c 0 then false else lexLeCols rest a b) = true
  rw [if_pos h]

theorem lexLeCols_cons_gt (c : Nat) (rest : List Nat) (a b : QRow)
    (h : b.getD c 0 < a.getD c 0) : lexLeCols (c :: rest) a b = false := by
  show (if a.getD c 0 < b.getD c 0 then true
    else if b.getD c 0 < a.getD c 0 then false else lexLeCols rest a b) = false
  rw [if_neg (lt_asymm h), if_pos h]

theorem lexLeCols_cons_eq (c : Nat) (rest : List Nat) (a b : QRow)
    (h : a.getD c 0 = b.getD c 0) :
    lexLeCols (c :: rest) a b = lexLeCols rest a b := by
  show (if a.getD c 0 < b.getD c 0 then true
    else if b.getD c 0 < a.getD c 0 then false else lexLeCols rest a b) = _
  rw [if_neg (by rw [h]; exact lt_irrefl _), if_neg (by rw [h]; exact lt_irrefl _)]

theorem lexLeCols_total (cols : List Nat) (a b : QRow) :
    lexLeCols cols a b = true ∨ lexLeCols cols b a = true := by
  induction cols with
  | nil => exact Or.inl rfl
  | cons c rest ih =>
      rcases lt_trichotomy (a.getD c 0) (b.getD c 0) with h | h | h
      · exact Or.inl (lexLeCols_cons_lt c rest a b h)
      · rw [lexLeCols_cons_eq c rest a b h, lexLeCols_cons_eq c rest b a h.symm]
        exact ih
      · exact Or.inr (lexLeCols_cons_lt c rest b a h)

theorem lexLeCols_trans (cols : List Nat) (a b d : QRow)
    (h1 : lexLeCols cols a b = true) (h2 : lexLeCols cols b d = true) :
    lexLeCols cols a d = true := by
  induction cols with
  | nil => rfl
  | cons c rest ih =>
      rcases lt_trichotomy (a.getD c 0) (b.getD c 0) with hab | hab | hab
      · rcases lt_trichotomy (b.getD c 0) (d.getD c 0) with hbd | hbd | hbd
        · exact lexLeCols_cons_lt c rest a d (lt_trans hab hbd)
        · exact lexLeCols_cons_lt c rest a d (hbd ▸ hab)
        · rw [lexLeCols_cons_gt c rest b d hbd] at h2
          cases h2
      · rcases lt_trichotomy (b.getD c 0) (d.getD c 0) with hbd | hbd | hbd
        · exact lexLeCols_cons_lt c rest a d (hab ▸ hbd)
        · rw [lexLeCols_cons_eq c rest a d (hab.trans hbd)]
          rw [lexLeCols_cons_eq c rest a b hab] at h1
          rw [lexLeCols_cons_eq c rest b d hbd] at h2
          exact ih h1 h2
        · rw [lexLeCols_cons_gt c rest b d hbd] at h2
          cases h2
      · rw [lexLeCols_cons_gt c rest a b hab] at h1
        cases h1

theorem npLexsortIdx_sorted (cols : List Nat) (Q : List QRow) :
    List.Sorted (fun i j => lexLeCols cols (Q.getD i []) (Q.getD j []) = true)
      (npLexsortIdx cols Q) := by
  haveI : IsTotal Nat (fun i j => lexLeCols cols (Q.getD i []) (Q.getD j []) = true) :=
    ⟨fun i j => lexLeCols_total cols (Q.getD i []) (Q.getD j [])⟩
  haveI : IsTrans Nat (fun i j => lexLeCols cols (Q.getD i []) (Q.getD j []) = true) :=
    ⟨fun i j k => lexLeCols_trans cols (Q.getD i []) (Q.getD j []) (Q.getD k [])⟩
  exact List.sorted_insertionSort _ _

theorem npLexsortIdx_perm (cols : List Nat) (Q : List QRow) :
    (npLexsortIdx cols Q).Perm (List.range Q.length) :=
  List.perm_insertionSort _ _

/-- The canonical lexicographic order on Q rows named by the claim:
non-decreasing in h, ties broken by k, then l, then e, then temp. -/
def lexQLe (a b : QRow) : Prop :=
  a.getD 0 0 < b.getD 0 0 ∨ (a.getD 0 0 = b.getD 0 0 ∧
    (a.getD 1 0 < b.getD 1 0 ∨ (a.getD 1 0 = b.getD 1 0 ∧
      (a.getD 2 0 < b.getD 2 0 ∨ (a.getD 2 0 = b.getD 2 0 ∧
        (a.getD 3 0 < b.getD 3 0 ∨ (a.getD 3 0 = b.getD 3 0 ∧
          a.getD 4 0 ≤ b.getD 4 0)))))))

theorem lexLeCols_cons_iff (c : Nat) (rest : List Nat) (a b : QRow) :
    lexLeCols (c :: rest) a b = true ↔
      a.getD c 0 < b.getD c 0 ∨ (a.getD c 0 = b.getD c 0 ∧ lexLeCols rest a b = true) := by
  rcases lt_trichotomy (a.getD c 0) (b.getD c 0) with h | h | h
  · rw [lexLeCols_cons_lt c rest a b h]
    exact ⟨fun _ => Or.inl h, fun _ => rfl⟩
  · rw [lexLeCols_cons_eq c rest a b h]
    constructor
    · intro hr; exact Or.inr ⟨h, hr⟩
    · rintro (hl | ⟨_, hr⟩)
      · exact absurd hl (by rw [h]; exact lt_irrefl _)
      · exact hr
  · rw [lexLeCols_cons_gt c rest a b h]
    constructor
    · intro hf; cases hf
    · rintro (hl | ⟨he, _⟩)
      · exact absurd hl (lt_asymm h)
      · exact absurd h (by rw [he]; exact lt_irrefl _)

theorem lexLeCols_canonical (a b : QRow) :
    lexLeCols [0, 1, 2, 3, 4] a b = true ↔ lexQLe a b := by
  rw [lexLeCols_cons_iff, lexLeCols_cons_iff, lexLeCols_cons_iff, lexLeCols_cons_iff,
    lexLeCols_cons_iff, lexQLe]
  have h4 : (a.getD 4 0 < b.getD 4 0 ∨ (a.getD 4 0 = b.getD 4 0 ∧ lexLeCols [] a b = true)) ↔
      a.getD 4 0 ≤ b.getD 4 0 := by
    constructor
    · rintro (h | ⟨h, _⟩)
      · exact le_of_lt h
      · exact le_of_eq h
    · intro h
      rcases lt_or_eq_of_le h with h | h
      · exact Or.inl h
      · exact Or.inr ⟨h, rfl⟩
  rw [h4]

/-- A merged record: one Q row with its detector, monitor and time values. -/
abbrev QRec := QRow × ℚ × ℚ × ℚ

/-- The rows of a cloud with their per-point values, as a list of records. -/
def recordsOf (Q : List QRow) (det mon tim : List ℚ) : List QRec :=
  Q.zip (det.zip (mon.zip tim))

theorem recordsOf_eq_map_range :
    ∀ (Q : List QRow) (det mon tim : List ℚ),
      det.length = Q.length → mon.length = Q.length → tim.length = Q.length →
      recordsOf Q det mon tim =
        (List.range Q.length).map fun i =>
          (Q.getD i [], det.getD i 0, mon.getD i 0, tim.getD i 0) := by
  intro Q
  induction Q with
  | nil =>
      intro det mon tim _ _ _
      rfl
  | cons q Qs ih =>
      intro det mon tim hd hm ht
      cases det with
      | nil => cases hd
      | cons dv ds =>
      cases mon with
      | nil => cases hm
      | cons mv ms =>
      cases tim with
      | nil => cases ht
      | cons tv ts =>
      have hd' : ds.length = Qs.length := Nat.succ_injective hd
      have hm' : ms.length = Qs.length := Nat.succ_injective hm
      have ht' : ts.length = Qs.length := Nat.succ_injective ht
      show (q, dv, mv, tv) :: recordsOf Qs ds ms ts = _
      rw [List.length_cons, List.range_succ_eq_map, List.map_cons, List.map_map]
      rw [ih ds ms ts hd' hm' ht']
      rfl

theorem recordsOf_applyOrder (Q : List QRow) (det mon tim : List ℚ)
    (ord : List Nat) :
    recordsOf (applyOrder [] ord Q) (applyOrder 0 ord det)
        (applyOrder 0 ord mon) (applyOrder 0 ord tim) =
      ord.map fun i => (Q.getD i [], det.getD i 0, mon.getD i 0, tim.getD i 0) := by
  show ((ord.map _).zip ((ord.map _).zip ((ord.map _).zip (ord.map _)))) = _
  rw [List.zip_map', List.zip_map', List.zip_map']

/-- C2: every merge, in place or returning a new cloud, leaves the rows in
canonical lexicographic order (non-decreasing h, ties broken by k, l, e,
temp), and the four arrays of the result are one single permutation of the
pre-sort merged arrays, applied consistently. -/
theorem combine_data_canonical_order (d : Data) (args : List ArgSet)
    (tols : Option (List ℚ)) (ret : Bool) :
    List.Pairwise lexQLe ((d.combine_data args tols ret).1).Q ∧
    ∃ ord : List Nat,
      ord.Perm (List.range (combineCore d args (tols.getD defaultTols)).1.Q.length) ∧
      ((d.combine_data args tols ret).1).Q =
        applyOrder [] ord (combineCore d args (tols.getD defaultTols)).1.Q ∧
      ((d.combine_data args tols ret).1).detector =
        applyOrder 0 ord (combineCore d args (tols.getD defaultTols)).1.detector ∧
      ((d.combine_data args tols ret).1).monitor =
        applyOrder 0 ord (combineCore d args (tols.getD defaultTols)).1.monitor ∧
      ((d.combine_data args tols ret).1).time =
        applyOrder 0 ord (combineCore d args (tols.getD defaultTols)).1.time := by
  have harr : ((d.combine_data args tols ret).1).Q =
        (sortByQ (combineCore d args (tols.getD defaultTols)).1).Q ∧
      ((d.combine_data args tols ret).1).detector =
        (sortByQ (combineCore d args (tols.getD defaultTols)).1).detector ∧
      ((d.combine_data args tols ret).1).monitor =
        (sortByQ (combineCore d args (tols.getD defaultTols)).1).monitor ∧
      ((d.combine_data args tols ret).1).time =
        (sortByQ (combineCore d args (tols.getD defaultTols)).1).time := by
    cases ret <;> exact ⟨rfl, rfl, rfl, rfl⟩
  obtain ⟨hQ, hdet, hmon, htim⟩ := harr
  constructor
  · rw [hQ]
    have hsorted := npLexsortIdx_sorted [0, 1, 2, 3, 4]
      (combineCore d args (tols.getD defaultTols)).1.Q
    have : List.Pairwise lexQLe
        (applyOrder [] (npLexsortIdx [0, 1, 2, 3, 4]
          (combineCore d args (tols.getD defaultTols)).1.Q)
          (combineCore d args (tols.getD defaultTols)).1.Q) := by
      apply List.Pairwise.map
      · intro i j hij
        exact (lexLeCols_canonical _ _).mp hij
      · exact hsorted
    exact this
  · refine ⟨npLexsortIdx [0, 1, 2, 3, 4] (combineCore d args (tols.getD defaultTols)).1.Q,
      npLexsortIdx_perm _ _, hQ, hdet, hmon, htim⟩

theorem accumulate_length (vals : List ℚ) :
    ∀ (pairs : List (Nat × Nat)) (base : List ℚ),
      (accumulate base vals pairs).length = base.length := by
  intro pairs
  induction pairs with
  | nil => intro base; rfl
  | cons p rest ih =>
      intro base
      show (accumulate (base.set p.2 (base.getD p.2 0 + vals.getD p.1 0)) vals rest).length = _
      rw [ih, List.length_set]

theorem getD_set_self (l : List ℚ) (i : Nat) (v : ℚ) (h : i < l.length) :
    (l.set i v).getD i 0 = v := by
  rw [List.getD_eq_getElem?_getD, List.getElem?_set, if_pos rfl, if_pos h]
  rfl

theorem getD_set_ne (l : List ℚ) (i j : Nat) (v : ℚ) (h : i ≠ j) :
    (l.set i v).getD j 0 = l.getD j 0 := by
  rw [List.getD_eq_getElem?_getD, List.getElem?_set, if_neg h, ← List.getD_eq_getElem?_getD]

theorem accumulate_getD (vals : List ℚ) :
    ∀ (pairs : List (Nat × Nat)) (base : List ℚ) (j : Nat),
      (∀ p ∈ pairs, p.2 < base.length) →
      (accumulate base vals pairs).getD j 0 =
        base.getD j 0 +
          ((pairs.filter fun p => decide (p.2 = j)).map fun p => vals.getD p.1 0).sum := by
  intro pairs
  induction pairs with
  | nil =>
      intro base j _
      show base.getD j 0 = base.getD j 0 + (List.map _ (List.filter _ [])).sum
      rw [List.filter_nil, List.map_nil, List.sum_nil, add_zero]
  | cons p rest ih =>
      intro base j hb
      have hp : p.2 < base.length := hb p (List.mem_cons_self p rest)
      have hrest : ∀ q ∈ rest,
          q.2 < (base.set p.2 (base.getD p.2 0 + vals.getD p.1 0)).length := by
        intro q hq
        rw [List.length_set]
        exact hb q (List.mem_cons_of_mem p hq)
      show (accumulate (base.set p.2 (base.getD p.2 0 + vals.getD p.1 0)) vals rest).getD j 0 = _
      rw [ih _ j hrest]
      by_cases hj : p.2 = j
      · subst hj
        rw [getD_set_self base p.2 _ hp]
        have hfil : (p :: rest).filter (fun q => decide (q.2 = p.2)) =
            p :: rest.filter (fun q => decide (q.2 = p.2)) := by
          rw [List.filter_cons, if_pos (by simp)]
        rw [hfil, List.map_cons, List.sum_cons, add_assoc]
      · rw [getD_set_ne base p.2 j _ hj]
        have hfil : (p :: rest).filter (fun q => decide (q.2 = j)) =
            rest.filter (fun q => decide (q.2 = j)) := by
          rw [List.filter_cons, if_neg (by simpa using hj)]
        rw [hfil]

theorem filterMap_ite_eq_filter_map {β : Type} (f : Nat → β) (idxs : List Nat) :
    ∀ L : List Nat,
      (L.filterMap fun i => if i ∈ idxs then none else some (f i)) =
        (L.filter fun i => decide (i ∉ idxs)).map f := by
  intro L
  induction L with
  | nil => rfl
  | cons a L ih =>
      by_cases ha : a ∈ idxs
      · have h1 : (if a ∈ idxs then none else some (f a)) = (none : Option β) := if_pos ha
        rw [List.filterMap_cons, h1, List.filter_cons, if_neg (by simpa using ha), ih]
      · have h1 : (if a ∈ idxs then none else some (f a)) = some (f a) := if_neg ha
        rw [List.filterMap_cons, h1, List.filter_cons, if_pos (by simpa using ha), ih,
          List.map_cons]

theorem npDeleteRows_eq_applyOrder {α : Type} (l : List α) (idxs : List Nat) (dflt : α) :
    npDeleteRows l idxs dflt =
      applyOrder dflt ((List.range l.length).filter fun i => decide (i ∉ idxs)) l :=
  filterMap_ite_eq_filter_map _ idxs _

theorem npDeleteRows_length {α β : Type} (l : List α) (l2 : List β) (idxs : List Nat)
    (dflt : α) (dflt2 : β) (h : l.length = l2.length) :
    (npDeleteRows l idxs dflt).length = (npDeleteRows l2 idxs dflt2).length := by
  rw [npDeleteRows_eq_applyOrder, npDeleteRows_eq_applyOrder, applyOrder, applyOrder,
    List.length_map, List.length_map, h]

theorem npDeleteRows_length_lt {α : Type} (l : List α) (idxs : List Nat) (dflt : α)
    (i0 : Nat) (h0 : i0 ∈ idxs) (hlt : i0 < l.length) :
    (npDeleteRows l idxs dflt).length < l.length := by
  rw [npDeleteRows_eq_applyOrder, applyOrder, List.length_map]
  have hf : ((List.range l.length).filter fun i => decide (i ∉ idxs)).length <
      (List.range l.length).length := by
    rw [List.length_filter_lt_length_iff_exists]
    exact ⟨i0, List.mem_range.mpr hlt, by simp [h0]⟩
  rwa [List.length_range] at hf

theorem matchPairs_bounds (selfQ argQ : List QRow) (tols : List ℚ) :
    ∀ p ∈ matchPairs selfQ argQ tols, p.1 < argQ.length ∧ p.2 < selfQ.length := by
  intro p hp
  rw [matchPairs, List.mem_flatMap] at hp
  obtain ⟨i, hi, hp⟩ := hp
  rw [List.mem_filterMap] at hp
  obtain ⟨j, hj, hpj⟩ := hp
  by_cases hw : withinTols (selfQ.getD j []) (argQ.getD i []) tols = true
  · rw [if_pos hw] at hpj
    injection hpj with h
    rw [← h]
    exact ⟨List.mem_range.mp hi, List.mem_range.mp hj⟩
  · rw [if_neg hw] at hpj
    cases hpj

theorem recordsOf_append (Q1 Q2 : List QRow) (det1 det2 mon1 mon2 tim1 tim2 : List ℚ)
    (h1 : det1.length = Q1.length) (h2 : mon1.length = Q1.length)
    (h3 : tim1.length = Q1.length) :
    recordsOf (Q1 ++ Q2) (det1 ++ det2) (mon1 ++ mon2) (tim1 ++ tim2) =
      recordsOf Q1 det1 mon1 tim1 ++ recordsOf Q2 det2 mon2 tim2 := by
  unfold recordsOf
  rw [List.zip_append (h2.trans h3.symm),
    List.zip_append (by rw [List.length_zip, h2, h3, h1, Nat.min_self]),
    List.zip_append (by rw [List.length_zip, List.length_zip, h1, h2, h3,
      Nat.min_self, Nat.min_self])]

theorem applyOrder_range {α : Type} (dflt : α) :
    ∀ l : List α, applyOrder dflt (List.range l.length) l = l := by
  intro l
  induction l with
  | nil => rfl
  | cons a t ih =>
      show (List.range (t.length + 1)).map (fun i => (a :: t).getD i dflt) = a :: t
      rw [List.range_succ_eq_map, List.map_cons, List.map_map]
      have hcomp : ((fun i => (a :: t).getD i dflt) ∘ Nat.succ) =
          fun i => t.getD i dflt := rfl
      rw [hcomp]
      have hh : (a :: t).getD 0 dflt = a := rfl
      rw [hh]
      have iht : (List.range t.length).map (fun i => t.getD i dflt) = t := ih
      rw [iht]

theorem argDeleted_applyOrder (selfQ : List QRow) (tols : List ℚ) (arg : ArgSet)
    (hadet : arg.detector.length = arg.Q.length)
    (hamon : arg.monitor.length = arg.Q.length)
    (hatim : arg.time.length = arg.Q.length) :
    argDeleted selfQ tols arg =
      ⟨applyOrder [] ((List.range arg.Q.length).filter fun i =>
          decide (i ∉ (matchPairs selfQ arg.Q tols).map Prod.fst)) arg.Q,
        applyOrder 0 ((List.range arg.Q.length).filter fun i =>
          decide (i ∉ (matchPairs selfQ arg.Q tols).map Prod.fst)) arg.detector,
        applyOrder 0 ((List.range arg.Q.length).filter fun i =>
          decide (i ∉ (matchPairs selfQ arg.Q tols).map Prod.fst)) arg.monitor,
        applyOrder 0 ((List.range arg.Q.length).filter fun i =>
          decide (i ∉ (matchPairs selfQ arg.Q tols).map Prod.fst)) arg.time⟩ := by
  by_cases hP : matchPairs selfQ arg.Q tols = []
  · rw [argDeleted, if_pos hP, hP]
    have hfil : ∀ L : List Nat,
        (L.filter fun i => decide (i ∉ ([] : List (Nat × Nat)).map Prod.fst)) = L := by
      intro L
      apply List.filter_eq_self.mpr
      intro a _
      exact decide_eq_true (by simp)
    rw [hfil]
    have h1 : applyOrder 0 (List.range arg.Q.length) arg.detector = arg.detector := by
      rw [← hadet]; exact applyOrder_range 0 arg.detector
    have h2 : applyOrder 0 (List.range arg.Q.length) arg.monitor = arg.monitor := by
      rw [← hamon]; exact applyOrder_range 0 arg.monitor
    have h3 : applyOrder 0 (List.range arg.Q.length) arg.time = arg.time := by
      rw [← hatim]; exact applyOrder_range 0 arg.time
    rw [applyOrder_range, h1, h2, h3]
  · rw [argDeleted, if_neg hP, npDeleteRows_eq_applyOrder, npDeleteRows_eq_applyOrder,
      npDeleteRows_eq_applyOrder, npDeleteRows_eq_applyOrder, hadet, hamon, hatim]

theorem combine_records_perm (d : Data) (arg : ArgSet) (tols : List ℚ)
    (hdet : d.detector.length = d.Q.length)
    (hmon : d.monitor.length = d.Q.length)
    (htim : d.time.length = d.Q.length)
    (hadet : arg.detector.length = arg.Q.length)
    (hamon : arg.monitor.length = arg.Q.length)
    (hatim : arg.time.length = arg.Q.length) :
    (recordsOf ((d.combine_data [arg] (some tols) false).1).Q
        ((d.combine_data [arg] (some tols) false).1).detector
        ((d.combine_data [arg] (some tols) false).1).monitor
        ((d.combine_data [arg] (some tols) false).1).time).Perm
      (((List.range d.Q.length).map fun j =>
          ((d.Q.getD j [] : QRow),
            d.detector.getD j 0 + (((matchPairs d.Q arg.Q tols).filter fun p =>
              decide (p.2 = j)).map fun p => arg.detector.getD p.1 0).sum,
            d.monitor.getD j 0 + (((matchPairs d.Q arg.Q tols).filter fun p =>
              decide (p.2 = j)).map fun p => arg.monitor.getD p.1 0).sum,
            d.time.getD j 0 + (((matchPairs d.Q arg.Q tols).filter fun p =>
              decide (p.2 = j)).map fun p => arg.time.getD p.1 0).sum)) ++
        (((List.range arg.Q.length).filter fun i =>
            decide (i ∉ (matchPairs d.Q arg.Q tols).map Prod.fst)).map fun i =>
          ((arg.Q.getD i [] : QRow), arg.detector.getD i 0, arg.monitor.getD i 0,
            arg.time.getD i 0))) := by
  have hAD := argDeleted_applyOrder d.Q tols arg hadet hamon hatim
  have hmerged : (combineCore d [arg] tols).1 =
      ⟨d.Q ++ (argDeleted d.Q tols arg).Q,
        accumulate d.detector arg.detector (matchPairs d.Q arg.Q tols) ++
          (argDeleted d.Q tols arg).detector,
        accumulate d.monitor arg.monitor (matchPairs d.Q arg.Q tols) ++
          (argDeleted d.Q tols arg).monitor,
        accumulate d.time arg.time (matchPairs d.Q arg.Q tols) ++
          (argDeleted d.Q tols arg).time⟩ := rfl
  have hlen_accD : (accumulate d.detector arg.detector (matchPairs d.Q arg.Q tols)).length
      = d.Q.length := by rw [accumulate_length, hdet]
  have hlen_accM : (accumulate d.monitor arg.monitor (matchPairs d.Q arg.Q tols)).length
      = d.Q.length := by rw [accumulate_length, hmon]
  have hlen_accT : (accumulate d.time arg.time (matchPairs d.Q arg.Q tols)).length
      = d.Q.length := by rw [accumulate_length, htim]
  have hADlenD : (argDeleted d.Q tols arg).detector.length = (argDeleted d.Q tols arg).Q.length := by
    rw [hAD]
    dsimp only
    rw [applyOrder, applyOrder, List.length_map, List.length_map]
  have hADlenM : (argDeleted d.Q tols arg).monitor.length = (argDeleted d.Q tols arg).Q.length := by
    rw [hAD]
    dsimp only
    rw [applyOrder, applyOrder, List.length_map, List.length_map]
  have hADlenT : (argDeleted d.Q tols arg).time.length = (argDeleted d.Q tols arg).Q.length := by
    rw [hAD]
    dsimp only
    rw [applyOrder, applyOrder, List.length_map, List.length_map]
  have hrecFront : recordsOf d.Q
      (accumulate d.detector arg.detector (matchPairs d.Q arg.Q tols))
      (accumulate d.monitor arg.monitor (matchPairs d.Q arg.Q tols))
      (accumulate d.time arg.time (matchPairs d.Q arg.Q tols)) =
      (List.range d.Q.length).map fun j =>
        ((d.Q.getD j [] : QRow),
          d.detector.getD j 0 + (((matchPairs d.Q arg.Q tols).filter fun p =>
            decide (p.2 = j)).map fun p => arg.detector.getD p.1 0).sum,
          d.monitor.getD j 0 + (((matchPairs d.Q arg.Q tols).filter fun p =>
            decide (p.2 = j)).map fun p => arg.monitor.getD p.1 0).sum,
          d.time.getD j 0 + (((matchPairs d.Q arg.Q tols).filter fun p =>
            decide (p.2 = j)).map fun p => arg.time.getD p.1 0).sum) := by
    rw [recordsOf_eq_map_range d.Q _ _ _ hlen_accD hlen_accM hlen_accT]
    apply List.map_congr_left
    intro j _
    have hbD : ∀ p ∈ matchPairs d.Q arg.Q tols, p.2 < d.detector.length := fun p hp =>
      hdet ▸ (matchPairs_bounds d.Q arg.Q tols p hp).2
    have hbM : ∀ p ∈ matchPairs d.Q arg.Q tols, p.2 < d.monitor.length := fun p hp =>
      hmon ▸ (matchPairs_bounds d.Q arg.Q tols p hp).2
    have hbT : ∀ p ∈ matchPairs d.Q arg.Q tols, p.2 < d.time.length := fun p hp =>
      htim ▸ (matchPairs_bounds d.Q arg.Q tols p hp).2
    rw [accumulate_getD arg.detector (matchPairs d.Q arg.Q tols) d.detector j hbD,
      accumulate_getD arg.monitor (matchPairs d.Q arg.Q tols) d.monitor j hbM,
      accumulate_getD arg.time (matchPairs d.Q arg.Q tols) d.time j hbT]
  have hrecBack : recordsOf (argDeleted d.Q tols arg).Q (argDeleted d.Q tols arg).detector
      (argDeleted d.Q tols arg).monitor (argDeleted d.Q tols arg).time =
      ((List.range arg.Q.length).filter fun i =>
        decide (i ∉ (matchPairs d.Q arg.Q tols).map Prod.fst)).map fun i =>
        ((arg.Q.getD i [] : QRow), arg.detector.getD i 0, arg.monitor.getD i 0,
          arg.time.getD i 0) := by
    rw [hAD]
    exact recordsOf_applyOrder arg.Q arg.detector arg.monitor arg.time _
  have hrecM : recordsOf (combineCore d [arg] tols).1.Q (combineCore d [arg] tols).1.detector
      (combineCore d [arg] tols).1.monitor (combineCore d [arg] tols).1.time =
      recordsOf d.Q
        (accumulate d.detector arg.detector (matchPairs d.Q arg.Q tols))
        (accumulate d.monitor arg.monitor (matchPairs d.Q arg.Q tols))
        (accumulate d.time arg.time (matchPairs d.Q arg.Q tols)) ++
      recordsOf (argDeleted d.Q tols arg).Q (argDeleted d.Q tols arg).detector
        (argDeleted d.Q tols arg).monitor (argDeleted d.Q tols arg).time := by
    rw [hmerged]
    exact recordsOf_append d.Q _ _ _ _ _ _ _ hlen_accD hlen_accM hlen_accT
  have hlenMD : (combineCore d [arg] tols).1.detector.length =
      (combineCore d [arg] tols).1.Q.length := by
    rw [hmerged]
    dsimp only
    rw [List.length_append, List.length_append, hlen_accD, hADlenD]
  have hlenMM : (combineCore d [arg] tols).1.monitor.length =
      (combineCore d [arg] tols).1.Q.length := by
    rw [hmerged]
    dsimp only
    rw [List.length_append, List.length_append, hlen_accM, hADlenM]
  have hlenMT : (combineCore d [arg] tols).1.time.length =
      (combineCore d [arg] tols).1.Q.length := by
    rw [hmerged]
    dsimp only
    rw [List.length_append, List.length_append, hlen_accT, hADlenT]
  have hres : recordsOf ((d.combine_data [arg] (some tols) false).1).Q
      ((d.combine_data [arg] (some tols) false).1).detector
      ((d.combine_data [arg] (some tols) false).1).monitor
      ((d.combine_data [arg] (some tols) false).1).time =
      (npLexsortIdx [0, 1, 2, 3, 4] (combineCore d [arg] tols).1.Q).map fun i =>
        ((combineCore d [arg] tols).1.Q.getD i [],
          (combineCore d [arg] tols).1.detector.getD i 0,
          (combineCore d [arg] tols).1.monitor.getD i 0,
          (combineCore d [arg] tols).1.time.getD i 0) := by
    exact recordsOf_applyOrder _ _ _ _ _
  rw [hres, ← hrecFront, ← hrecBack, ← hrecM]
  rw [recordsOf_eq_map_range _ _ _ _ hlenMD hlenMM hlenMT]
  exact (npLexsortIdx_perm [0, 1, 2, 3, 4] (combineCore d [arg] tols).1.Q).map _

/-- The one-row cloud of the spec example: detector 10, monitor 5. -/
def exCloud : Data := ⟨[[1, 0, 0, 0, 0]], [10], [5], [2], 5, 2, false⟩

/-- The identical incoming row of the spec example: detector 3, monitor 2. -/
def exArg : ArgSet := ⟨[[1, 0, 0, 0, 0]], [3], [2], [1]⟩

theorem exWithin : withinTols [1, 0, 0, 0, 0] [1, 0, 0, 0, 0] defaultTols = true := by
  rw [withinTols, show List.range 5 = [0, 1, 2, 3, 4] from rfl]
  simp only [List.all_cons, List.all_nil, Bool.and_eq_true, decide_eq_true_eq,
    List.getD_cons_zero, List.getD_cons_succ, List.getD_nil]
  norm_num [defaultTols]

theorem exPairs : matchPairs exCloud.Q exArg.Q defaultTols = [(0, 0)] := by
  rw [matchPairs]
  rw [show exArg.Q.length = 1 from rfl, show exCloud.Q.length = 1 from rfl,
    show List.range 1 = [0] from rfl]
  rw [List.flatMap_cons, List.flatMap_nil, List.filterMap_cons, List.filterMap_nil]
  rw [show exCloud.Q.getD 0 [] = [1, 0, 0, 0, 0] from rfl,
    show exArg.Q.getD 0 [] = [1, 0, 0, 0, 0] from rfl, if_pos exWithin]
  rfl

theorem exStep : combineStep exCloud.Q defaultTols
    ⟨exCloud.Q, exCloud.detector, exCloud.monitor, exCloud.time⟩ exArg =
    (⟨[[1, 0, 0, 0, 0]], [13], [7], [3]⟩, ⟨[], [], [], []⟩) := by
  rw [combineStep, argDeleted, exPairs]
  have hacc : ∀ (b v : ℚ) (vals : List ℚ), accumulate [b] (v :: vals) [(0, 0)] = [b + v] := by
    intro b v vals; rfl
  have hdel : ∀ (r : QRow), npDeleteRows [r] [0] ([] : QRow) = [] := by intro r; rfl
  have hdel2 : ∀ (x : ℚ), npDeleteRows [x] [0] (0 : ℚ) = [] := by intro x; rfl
  simp only [exCloud, exArg, hacc, hdel, hdel2]
  norm_num [hdel, hdel2]

theorem exCore : combineCore exCloud [exArg] defaultTols =
    (⟨[[1, 0, 0, 0, 0]], [13], [7], [3]⟩, [⟨[], [], [], []⟩]) := by
  rw [combineCore, List.foldl_cons, List.foldl_nil]
  simp only [exStep]
  rfl

theorem exCombine :
    ((exCloud.combine_data [exArg] none false).1).Q = [[1, 0, 0, 0, 0]] ∧
    ((exCloud.combine_data [exArg] none false).1).detector = [13] ∧
    ((exCloud.combine_data [exArg] none false).1).monitor = [7] := by
  have hc : exCloud.combine_data [exArg] none false =
      (⟨[[1, 0, 0, 0, 0]], [13], [7], [3], 5, 2, false⟩, [⟨[], [], [], []⟩]) := by
    rw [Data.combine_data,
      show (none : Option (List ℚ)).getD defaultTols = defaultTols from rfl, exCore]
    rfl
  rw [hc]
  exact ⟨rfl, rfl, rfl⟩

/-- C1: for every cloud and incoming point set, the merge folds each incoming
point within the per-axis tolerance of an existing row on all five axes
simultaneously by adding its detector, monitor and time into that row, and
appends every unmatched incoming point as a new row: the first conjunct
grounds the five-axis tolerance test, the second states that the records of
the merged cloud are, up to the final sort, exactly the existing rows with the
matched incoming detector, monitor and time values summed in plus the
unmatched incoming rows verbatim, and the last three conjuncts are the spec
instance: one row with detector 10 and monitor 5 merged with an
identical-within-tolerance row with detector 3 and monitor 2 gives the single
row with detector 13 and monitor 7. -/
theorem combine_data_folds_and_appends (d : Data) (arg : ArgSet) (tols : List ℚ)
    (hdet : d.detector.length = d.Q.length)
    (hmon : d.monitor.length = d.Q.length)
    (htim : d.time.length = d.Q.length)
    (hadet : arg.detector.length = arg.Q.length)
    (hamon : arg.monitor.length = arg.Q.length)
    (hatim : arg.time.length = arg.Q.length) :
    (∀ a b : QRow, withinTols a b tols = true ↔
      ∀ c < 5, |a.getD c 0 - b.getD c 0| ≤ tols.getD c 0) ∧
    (recordsOf ((d.combine_data [arg] (some tols) false).1).Q
        ((d.combine_data [arg] (some tols) false).1).detector
        ((d.combine_data [arg] (some tols) false).1).monitor
        ((d.combine_data [arg] (some tols) false).1).time).Perm
      (((List.range d.Q.length).map fun j =>
          ((d.Q.getD j [] : QRow),
            d.detector.getD j 0 + (((matchPairs d.Q arg.Q tols).filter fun p =>
              decide (p.2 = j)).map fun p => arg.detector.getD p.1 0).sum,
            d.monitor.getD j 0 + (((matchPairs d.Q arg.Q tols).filter fun p =>
              decide (p.2 = j)).map fun p => arg.monitor.getD p.1 0).sum,
            d.time.getD j 0 + (((matchPairs d.Q arg.Q tols).filter fun p =>
              decide (p.2 = j)).map fun p => arg.time.getD p.1 0).sum)) ++
        (((List.range arg.Q.length).filter fun i =>
            decide (i ∉ (matchPairs d.Q arg.Q tols).map Prod.fst)).map fun i =>
          ((arg.Q.getD i [] : QRow), arg.detector.getD i 0, arg.monitor.getD i 0,
            arg.time.getD i 0))) ∧
    ((exCloud.combine_data [exArg] none false).1).Q = [[1, 0, 0, 0, 0]] ∧
    ((exCloud.combine_data [exArg] none false).1).detector = [13] ∧
    ((exCloud.combine_data [exArg] none false).1).monitor = [7] := by
  refine ⟨?_, combine_records_perm d arg tols hdet hmon htim hadet hamon hatim, exCombine⟩
  intro a b
  rw [withinTols, List.all_eq_true]
  constructor
  · intro h c hc
    exact of_decide_eq_true (h c (List.mem_range.mpr hc))
  · intro h c hcmem
    exact decide_eq_true (h c (List.mem_range.mp hcmem))

/-- C1 witness: the theorem applied to the concrete one-row example cloud and
its incoming set, projected to the instance conjuncts. -/
theorem combine_data_folds_witness :
    ((exCloud.combine_data [exArg] none false).1).Q = [[1, 0, 0, 0, 0]] ∧
    ((exCloud.combine_data [exArg] none false).1).detector = [13] ∧
    ((exCloud.combine_data [exArg] none false).1).monitor = [7] :=
  (combine_data_folds_and_appends exCloud exArg defaultTols rfl rfl rfl rfl rfl rfl).2.2

/-- C10: an in-place merge call in which at least one incoming point matches
an existing row within tolerance mutates the caller-supplied incoming
mapping: its Q, detector, monitor and time entries are replaced by arrays
with the matched rows deleted, leaving the incoming set strictly smaller, not
intact. -/
theorem combine_data_mutates_incoming (d : Data) (arg : ArgSet) (tols : Option (List ℚ))
    (hne : matchPairs d.Q arg.Q (tols.getD defaultTols) ≠ []) :
    (d.combine_data [arg] tols false).2 =
      [⟨npDeleteRows arg.Q
          ((matchPairs d.Q arg.Q (tols.getD defaultTols)).map Prod.fst) [],
        npDeleteRows arg.detector
          ((matchPairs d.Q arg.Q (tols.getD defaultTols)).map Prod.fst) 0,
        npDeleteRows arg.monitor
          ((matchPairs d.Q arg.Q (tols.getD defaultTols)).map Prod.fst) 0,
        npDeleteRows arg.time
          ((matchPairs d.Q arg.Q (tols.getD defaultTols)).map Prod.fst) 0⟩] ∧
    ((d.combine_data [arg] tols false).2.getD 0 ⟨[], [], [], []⟩).Q.length <
      arg.Q.length := by
  have h2 : (d.combine_data [arg] tols false).2 =
      [argDeleted d.Q (tols.getD defaultTols) arg] := rfl
  rw [h2, argDeleted, if_neg hne]
  refine ⟨rfl, ?_⟩
  show (npDeleteRows arg.Q _ []).length < arg.Q.length
  obtain ⟨p, hp⟩ := List.exists_mem_of_ne_nil _ hne
  exact npDeleteRows_length_lt arg.Q _ [] p.1 (List.mem_map_of_mem Prod.fst hp)
    (matchPairs_bounds _ _ _ p hp).1

/-- C10 witness: the theorem applied to the concrete example, in which the
single incoming row matches and is deleted, leaving an empty incoming set. -/
theorem combine_data_mutates_incoming_witness :
    (exCloud.combine_data [exArg] none false).2 =
      [⟨npDeleteRows exArg.Q ((matchPairs exCloud.Q exArg.Q defaultTols).map Prod.fst) [],
        npDeleteRows exArg.detector ((matchPairs exCloud.Q exArg.Q defaultTols).map Prod.fst) 0,
        npDeleteRows exArg.monitor ((matchPairs exCloud.Q exArg.Q defaultTols).map Prod.fst) 0,
        npDeleteRows exArg.time ((matchPairs exCloud.Q exArg.Q defaultTols).map Prod.fst) 0⟩] ∧
    ((exCloud.combine_data [exArg] none false).2.getD 0 ⟨[], [], [], []⟩).Q.length <
      exArg.Q.length :=
  combine_data_mutates_incoming exCloud exArg none
    (by rw [Option.getD_none, exPairs]; simp)

/-- One axis entry of the to_bin dictionary: lower bound, upper bound, number
of points. -/
structure BinAxis where
  lo : ℚ
  hi : ℚ
  n : Nat
deriving DecidableEq

/-- The per-axis sample vector and step of Data.bin (core.py lines 563-569):
a single-point axis collapses to np.average of the bounds, the midpoint, with
step upper - lower; otherwise np.linspace with retstep gives the n evenly
spaced samples lower + i*(upper - lower)/(n - 1) and that spacing as step. -/
def binAxisSamples (a : BinAxis) : List ℚ × ℚ :=
  if a.n = 1 then ([(a.lo + a.hi) / 2], a.hi - a.lo)
  else ((List.range a.n).map fun i : Nat => a.lo + (a.hi - a.lo) * (i : ℚ) / ((a.n : ℚ) - 1),
    (a.hi - a.lo) / ((a.n : ℚ) - 1))

/-- The flattened rows of np.meshgrid(q0, q1, q2, q3, q4) (core.py lines
573-574). The default meshgrid indexing is xy, whose output arrays have shape
(n1, n0, n2, n3, n4), so flattening iterates the second axis q1 outermost,
then q0, then q2, q3, q4; each row still reads (h, k, l, e, temp). -/
def gridRows (q0 q1 q2 q3 q4 : List ℚ) : List QRow :=
  q1.flatMap fun y => q0.flatMap fun x => q2.flatMap fun z =>
    q3.flatMap fun w => q4.map fun v => [x, y, z, w, v]

/-- The working state of one cell evaluation in _bin_parallel: the current
subset of rows with its parallel arrays, and the last chunk bounds found by
searchsorted. -/
structure CellState where
  Q : List QRow
  mon : List ℚ
  det : List ℚ
  tim : List ℚ
  c0 : Nat
  c1 : Nat
deriving DecidableEq

/-- The key columns of the lexsort in _bin_parallel at axis j (core.py line
524): np.lexsort([_Q[:, j - n] for n in reversed(range(5))]) sorts with
column j as the most significant key, then j-1, j-2, j-3, j-4, the negative
column indices wrapping around. -/
def rotCols (j : Nat) : List Nat :=
  [j % 5, (j + 4) % 5, (j + 3) % 5, (j + 2) % 5, (j + 1) % 5]

/-- The state after the sort at the start of an axis iteration (core.py lines
524-525): all four arrays reordered by the lexsort of the current subset. -/
def cellSorted (j : Nat) (st : CellState) : CellState :=
  ⟨applyOrder [] (npLexsortIdx (rotCols j) st.Q) st.Q,
    applyOrder 0 (npLexsortIdx (rotCols j) st.Q) st.mon,
    applyOrder 0 (npLexsortIdx (rotCols j) st.Q) st.det,
    applyOrder 0 (npLexsortIdx (rotCols j) st.Q) st.tim,
    st.c0, st.c1⟩

/-- np.searchsorted(column j, cell[j] - step[j]/2, side=left) on rows sorted
by column j: the number of rows whose column j value is strictly below the
window low edge (core.py line 527). -/
def chunkLo (cell : QRow) (qstep : List ℚ) (j : Nat) (Q : List QRow) : Nat :=
  Q.countP fun r => decide (r.getD j 0 < cell.getD j 0 - qstep.getD j 0 / 2)

/-- np.searchsorted(column j, cell[j] + step[j]/2, side=right) on rows sorted
by column j: the number of rows whose column j value is at most the window
high edge (core.py line 528). -/
def chunkHi (cell : QRow) (qstep : List ℚ) (j : Nat) (Q : List QRow) : Nat :=
  Q.countP fun r => decide (r.getD j 0 ≤ cell.getD j 0 + qstep.getD j 0 / 2)

/-- The python slice l[c0:c1]. -/
def sliceList {α : Type} (c0 c1 : Nat) (l : List α) : List α :=
  (l.drop c0).take (c1 - c0)

/-- One axis iteration of the cell loop in _bin_parallel (core.py lines
523-531): sort by the rotated keys, search the half-step window on column j,
and narrow the subset only when the found range is non-empty; the chunk
bounds are recorded in the state either way. -/
def binCellStep (cell : QRow) (qstep : List ℚ) (st : CellState) (j : Nat) : CellState :=
  if chunkLo cell qstep j (cellSorted j st).Q < chunkHi cell qstep j (cellSorted j st).Q then
    ⟨sliceList (chunkLo cell qstep j (cellSorted j st).Q)
        (chunkHi cell qstep j (cellSorted j st).Q) (cellSorted j st).Q,
      sliceList (chunkLo cell qstep j (cellSorted j st).Q)
        (chunkHi cell qstep j (cellSorted j st).Q) (cellSorted j st).mon,
      sliceList (chunkLo cell qstep j (cellSorted j st).Q)
        (chunkHi cell qstep j (cellSorted j st).Q) (cellSorted j st).det,
      sliceList (chunkLo cell qstep j (cellSorted j st).Q)
        (chunkHi cell qstep j (cellSorted j st).Q) (cellSorted j st).tim,
      chunkLo cell qstep j (cellSorted j st).Q, chunkHi cell qstep j (cellSorted j st).Q⟩
  else
    ⟨(cellSorted j st).Q, (cellSorted j st).mon, (cellSorted j st).det,
      (cellSorted j st).tim, chunkLo cell qstep j (cellSorted j st).Q,
      chunkHi cell qstep j (cellSorted j st).Q⟩

/-- np.average of a one-dimensional array: the mean; averaging an empty array
yields NaN, modelled as none. -/
def npAverage (l : List ℚ) : Option ℚ :=
  if l.length = 0 then none else some (l.sum / l.length)

/-- The body of the per-cell loop of _bin_parallel (core.py lines 520-535):
run the five axis iterations starting from the full cloud, then average the
slice [chunk0:chunk1) of the final arrays, with chunk0 and chunk1 the bounds
found at the last (temp) axis. The slice is applied to the arrays that were
already narrowed inside the loop, as in the source. Returns the cell
(monitor, detector, time). -/
def binCell (d : Data) (qstep : List ℚ) (cell : QRow) : Option ℚ × Option ℚ × Option ℚ :=
  ((fun st => (npAverage (sliceList st.c0 st.c1 st.mon),
      npAverage (sliceList st.c0 st.c1 st.det),
      npAverage (sliceList st.c0 st.c1 st.tim)))
    ((List.range 5).foldl (binCellStep cell qstep) ⟨d.Q, d.monitor, d.detector, d.time, 0, 0⟩))

/-- The cloud returned by Data.bin, with per-cell averages that may be NaN
(none) when the final window slice is empty. -/
structure BinnedData where
  Q : List QRow
  detector : List (Option ℚ)
  monitor : List (Option ℚ)
  time : List (Option ℚ)
  m0 : ℚ
  t0 : ℚ
deriving DecidableEq

/-- Data.bin (core.py lines 539-583): build the per-axis samples and steps,
form the meshgrid rows, evaluate every cell, and construct the output cloud
inheriting m0 and t0 from the source through the keyword overrides. The
worker pool partitions the grid rows into contiguous chunks in order and
concatenates the chunk results in chunk order, which equals mapping the cell
evaluation over the rows in order; it is modelled sequentially. -/
def Data.bin (d : Data) (bh bk bl be bt : BinAxis) : BinnedData :=
  ⟨gridRows (binAxisSamples bh).1 (binAxisSamples bk).1 (binAxisSamples bl).1
      (binAxisSamples be).1 (binAxisSamples bt).1,
    (gridRows (binAxisSamples bh).1 (binAxisSamples bk).1 (binAxisSamples bl).1
      (binAxisSamples be).1 (binAxisSamples bt).1).map fun cell =>
        (binCell d [(binAxisSamples bh).2, (binAxisSamples bk).2, (binAxisSamples bl).2,
          (binAxisSamples be).2, (binAxisSamples bt).2] cell).2.1,
    (gridRows (binAxisSamples bh).1 (binAxisSamples bk).1 (binAxisSamples bl).1
      (binAxisSamples be).1 (binAxisSamples bt).1).map fun cell =>
        (binCell d [(binAxisSamples bh).2, (binAxisSamples bk).2, (binAxisSamples bl).2,
          (binAxisSamples be).2, (binAxisSamples bt).2] cell).1,
    (gridRows (binAxisSamples bh).1 (binAxisSamples bk).1 (binAxisSamples bl).1
      (binAxisSamples be).1 (binAxisSamples bt).1).map fun cell =>
        (binCell d [(binAxisSamples bh).2, (binAxisSamples bk).2, (binAxisSamples bl).2,
          (binAxisSamples be).2, (binAxisSamples bt).2] cell).2.2,
    d.m0, d.t0⟩

theorem length_flatMap_const {α β : Type} (f : α → List β) (k : Nat)
    (h : ∀ x, (f x).length = k) : ∀ l : List α, (l.flatMap f).length = l.length * k := by
  intro l
  induction l with
  | nil => rw [List.flatMap_nil, List.length_nil, List.length_nil, Nat.zero_mul]
  | cons a t ih =>
      rw [List.flatMap_cons, List.length_append, h a, ih, List.length_cons, Nat.succ_mul]
      omega

theorem binAxisSamples_length (a : BinAxis) : (binAxisSamples a).1.length = a.n := by
  by_cases h : a.n = 1
  · rw [binAxisSamples, if_pos h, h]
    rfl
  · rw [binAxisSamples, if_neg h]
    dsimp only
    rw [List.length_map, List.length_range]

theorem gridRows_length (q0 q1 q2 q3 q4 : List ℚ) :
    (gridRows q0 q1 q2 q3 q4).length =
      q0.length * q1.length * q2.length * q3.length * q4.length := by
  rw [gridRows]
  rw [length_flatMap_const _ (q0.length * (q2.length * (q3.length * q4.length))) ?_ q1]
  · ring
  · intro y
    rw [length_flatMap_const _ (q2.length * (q3.length * q4.length)) ?_ q0]
    · intro x
      rw [length_flatMap_const _ (q3.length * q4.length) ?_ q2]
      intro z
      rw [length_flatMap_const _ q4.length ?_ q3]
      intro w
      rw [List.length_map]

theorem getD_flatMap_const {α β : Type} (f : α → List β) (k : Nat) (dB : β) (dA : α)
    (h : ∀ x, (f x).length = k) :
    ∀ (l : List α) (i j : Nat), i < l.length → j < k →
      (l.flatMap f).getD (i * k + j) dB = (f (l.getD i dA)).getD j dB := by
  intro l
  induction l with
  | nil => intro i j hi _; cases hi
  | cons a t ih =>
      intro i j hi hj
      cases i with
      | zero =>
          rw [List.flatMap_cons, Nat.zero_mul, Nat.zero_add,
            List.getD_append _ _ _ _ (by rw [h a]; exact hj)]
          rfl
      | succ n =>
          have hlen : (f a).length ≤ Nat.succ n * k + j := by
            rw [h a, Nat.succ_mul]
            omega
          rw [List.flatMap_cons, List.getD_append_right _ _ _ _ hlen, h a]
          have hidx : Nat.succ n * k + j - k = n * k + j := by
            rw [Nat.succ_mul]
            omega
          rw [hidx, ih n j (Nat.lt_of_succ_lt_succ hi) hj]
          rfl

theorem getD_map_lt {α β : Type} (f : α → β) (dB : β) (dA : α) :
    ∀ (l : List α) (i : Nat), i < l.length → (l.map f).getD i dB = f (l.getD i dA) := by
  intro l
  induction l with
  | nil => intro i hi; cases hi
  | cons a t ih =>
      intro i hi
      cases i with
      | zero => rfl
      | succ n => exact ih n (Nat.lt_of_succ_lt_succ hi)

theorem mixed_radix_lt (a n b m : Nat) (ha : a < n) (hb : b < m) :
    a * m + b < n * m := by
  have h1 : a * m + b < (a + 1) * m := by
    rw [Nat.succ_mul]
    omega
  exact Nat.lt_of_lt_of_le h1 (Nat.mul_le_mul_right m ha)

theorem gridRows_getD (q0 q1 q2 q3 q4 : List ℚ) (a0 a1 a2 a3 a4 : Nat)
    (h0 : a0 < q0.length) (h1 : a1 < q1.length) (h2 : a2 < q2.length)
    (h3 : a3 < q3.length) (h4 : a4 < q4.length) :
    (gridRows q0 q1 q2 q3 q4).getD
      ((((a1 * q0.length + a0) * q2.length + a2) * q3.length + a3) * q4.length + a4) [] =
      [q0.getD a0 0, q1.getD a1 0, q2.getD a2 0, q3.getD a3 0, q4.getD a4 0] := by
  have hb3 : a3 * q4.length + a4 < q3.length * q4.length :=
    mixed_radix_lt a3 q3.length a4 q4.length h3 h4
  have hb2 : (a2 * q3.length + a3) * q4.length + a4 <
      q2.length * (q3.length * q4.length) := by
    have hx := mixed_radix_lt (a2 * q3.length + a3) (q2.length * q3.length) a4 q4.length
      (mixed_radix_lt a2 q2.length a3 q3.length h2 h3) h4
    exact lt_of_lt_of_le hx (le_of_eq (by ring))
  have hb1 : ((a0 * q2.length + a2) * q3.length + a3) * q4.length + a4 <
      q0.length * (q2.length * (q3.length * q4.length)) := by
    have hx := mixed_radix_lt ((a0 * q2.length + a2) * q3.length + a3)
      (q0.length * q2.length * q3.length) a4 q4.length
      (mixed_radix_lt (a0 * q2.length + a2) (q0.length * q2.length) a3 q3.length
        (mixed_radix_lt a0 q0.length a2 q2.length h0 h2) h3) h4
    exact lt_of_lt_of_le hx (le_of_eq (by ring))
  have hk1 : ∀ y : ℚ, ((fun y => q0.flatMap fun x => q2.flatMap fun z =>
      q3.flatMap fun w => q4.map fun v => [x, y, z, w, v]) y).length =
      q0.length * (q2.length * (q3.length * q4.length)) := by
    intro y
    rw [length_flatMap_const _ (q2.length * (q3.length * q4.length)) ?_ q0]
    intro x
    rw [length_flatMap_const _ (q3.length * q4.length) ?_ q2]
    intro z
    rw [length_flatMap_const _ q4.length ?_ q3]
    intro w
    rw [List.length_map]
  have hk2 : ∀ x : ℚ, ((fun x => q2.flatMap fun z => q3.flatMap fun w =>
      q4.map fun v => [x, q1.getD a1 0, z, w, v]) x).length =
      q2.length * (q3.length * q4.length) := by
    intro x
    rw [length_flatMap_const _ (q3.length * q4.length) ?_ q2]
    intro z
    rw [length_flatMap_const _ q4.length ?_ q3]
    intro w
    rw [List.length_map]
  have hk3 : ∀ z : ℚ, ((fun z => q3.flatMap fun w =>
      q4.map fun v => [q0.getD a0 0, q1.getD a1 0, z, w, v]) z).length =
      q3.length * q4.length := by
    intro z
    rw [length_flatMap_const _ q4.length ?_ q3]
    intro w
    rw [List.length_map]
  have hk4 : ∀ w : ℚ, ((fun w =>
      q4.map fun v => [q0.getD a0 0, q1.getD a1 0, q2.getD a2 0, w, v]) w).length =
      q4.length := by
    intro w
    rw [List.length_map]
  have hI1 : (((a1 * q0.length + a0) * q2.length + a2) * q3.length + a3) * q4.length + a4 =
      a1 * (q0.length * (q2.length * (q3.length * q4.length))) +
        (((a0 * q2.length + a2) * q3.length + a3) * q4.length + a4) := by ring
  have e1 := getD_flatMap_const _ _ ([] : QRow) (0 : ℚ) hk1 q1 a1
    (((a0 * q2.length + a2) * q3.length + a3) * q4.length + a4) h1 hb1
  rw [gridRows, hI1, e1]
  have hI2 : ((a0 * q2.length + a2) * q3.length + a3) * q4.length + a4 =
      a0 * (q2.length * (q3.length * q4.length)) +
        ((a2 * q3.length + a3) * q4.length + a4) := by ring
  have e2 := getD_flatMap_const _ _ ([] : QRow) (0 : ℚ) hk2 q0 a0
    ((a2 * q3.length + a3) * q4.length + a4) h0 hb2
  rw [hI2, e2]
  have hI3 : (a2 * q3.length + a3) * q4.length + a4 =
      a2 * (q3.length * q4.length) + (a3 * q4.length + a4) := by ring
  have e3 := getD_flatMap_const _ _ ([] : QRow) (0 : ℚ) hk3 q2 a2
    (a3 * q4.length + a4) h2 hb3
  rw [hI3, e3]
  have e4 := getD_flatMap_const _ _ ([] : QRow) (0 : ℚ) hk4 q3 a3 a4 h3 h4
  rw [e4]
  exact getD_map_lt _ ([] : QRow) (0 : ℚ) q4 a4 h4

theorem gridRows_mem (q0 q1 q2 q3 q4 : List ℚ) (r : QRow) :
    r ∈ gridRows q0 q1 q2 q3 q4 ↔
      ∃ x0 ∈ q0, ∃ x1 ∈ q1, ∃ x2 ∈ q2, ∃ x3 ∈ q3, ∃ x4 ∈ q4,
        r = [x0, x1, x2, x3, x4] := by
  rw [gridRows]
  simp only [List.mem_flatMap, List.mem_map]
  constructor
  · rintro ⟨y, hy, x, hx, z, hz, w, hw, v, hv, rfl⟩
    exact ⟨x, hx, y, hy, z, hz, w, hw, v, hv, rfl⟩
  · rintro ⟨x, hx, y, hy, z, hz, w, hw, v, hv, rfl⟩
    exact ⟨y, hy, x, hx, z, hz, w, hw, v, hv, rfl⟩

/-- C4: for every grid specification the binner output cloud has exactly the
product of the five axis counts as its row count; its rows are exactly the
Cartesian product of the per-axis sample sequences, each output row equal to
the product sample at its grid position (the flat position follows the numpy
meshgrid xy layout, with the k axis outermost, then h, l, e, temp); and an
axis with count 1 over [a, b] contributes the single sample (a + b)/2 with
step b - a. -/
theorem bin_grid_cartesian (d : Data) (bh bk bl be bt : BinAxis) :
    (d.bin bh bk bl be bt).Q.length = bh.n * bk.n * bl.n * be.n * bt.n ∧
    (∀ r : QRow, r ∈ (d.bin bh bk bl be bt).Q ↔
      ∃ x0 ∈ (binAxisSamples bh).1, ∃ x1 ∈ (binAxisSamples bk).1,
        ∃ x2 ∈ (binAxisSamples bl).1, ∃ x3 ∈ (binAxisSamples be).1,
          ∃ x4 ∈ (binAxisSamples bt).1, r = [x0, x1, x2, x3, x4]) ∧
    (∀ a0 a1 a2 a3 a4 : Nat, a0 < bh.n → a1 < bk.n → a2 < bl.n → a3 < be.n →
      a4 < bt.n →
      (d.bin bh bk bl be bt).Q.getD
          ((((a1 * bh.n + a0) * bl.n + a2) * be.n + a3) * bt.n + a4) [] =
        [(binAxisSamples bh).1.getD a0 0, (binAxisSamples bk).1.getD a1 0,
          (binAxisSamples bl).1.getD a2 0, (binAxisSamples be).1.getD a3 0,
          (binAxisSamples bt).1.getD a4 0]) ∧
    (∀ a : BinAxis, a.n = 1 →
      binAxisSamples a = ([(a.lo + a.hi) / 2], a.hi - a.lo)) := by
  have hQ : (d.bin bh bk bl be bt).Q =
      gridRows (binAxisSamples bh).1 (binAxisSamples bk).1 (binAxisSamples bl).1
        (binAxisSamples be).1 (binAxisSamples bt).1 := rfl
  refine ⟨?_, ?_, ?_, ?_⟩
  · rw [hQ, gridRows_length, binAxisSamples_length, binAxisSamples_length,
      binAxisSamples_length, binAxisSamples_length, binAxisSamples_length]
  · intro r
    rw [hQ]
    exact gridRows_mem _ _ _ _ _ r
  · intro a0 a1 a2 a3 a4 ha0 ha1 ha2 ha3 ha4
    have e := gridRows_getD (binAxisSamples bh).1 (binAxisSamples bk).1
      (binAxisSamples bl).1 (binAxisSamples be).1 (binAxisSamples bt).1 a0 a1 a2 a3 a4
      (by rw [binAxisSamples_length]; exact ha0)
      (by rw [binAxisSamples_length]; exact ha1)
      (by rw [binAxisSamples_length]; exact ha2)
      (by rw [binAxisSamples_length]; exact ha3)
      (by rw [binAxisSamples_length]; exact ha4)
    rw [binAxisSamples_length bh, binAxisSamples_length bl, binAxisSamples_length be,
      binAxisSamples_length bt] at e
    rw [hQ]
    exact e
  · intro a h
    rw [binAxisSamples, if_pos h]

/-- C4 witness: the theorem applied to a concrete grid with two points on the
h axis and single-point axes elsewhere. -/
theorem bin_grid_cartesian_witness :
    (exCloud.bin ⟨0, 1, 2⟩ ⟨0, 0, 1⟩ ⟨0, 0, 1⟩ ⟨0, 0, 1⟩ ⟨0, 0, 1⟩).Q.length = 2 ∧
    binAxisSamples ⟨0, 0, 1⟩ = ([0], 0) ∧
    (exCloud.bin ⟨0, 1, 2⟩ ⟨0, 0, 1⟩ ⟨0, 0, 1⟩ ⟨0, 0, 1⟩ ⟨0, 0, 1⟩).Q.getD 1 [] =
      [(binAxisSamples ⟨0, 1, 2⟩).1.getD 1 0, 0, 0, 0, 0] := by
  have h := bin_grid_cartesian exCloud ⟨0, 1, 2⟩ ⟨0, 0, 1⟩ ⟨0, 0, 1⟩ ⟨0, 0, 1⟩ ⟨0, 0, 1⟩
  refine ⟨h.1.trans (by norm_num), (h.2.2.2 ⟨0, 0, 1⟩ rfl).trans (by norm_num), ?_⟩
  have e := h.2.2.1 1 0 0 0 0 (by norm_num) (by norm_num) (by norm_num) (by norm_num)
    (by norm_num)
  have hidx : (((0 * (2 : Nat) + 1) * 1 + 0) * 1 + 0) * 1 + 0 = 1 := by norm_num
  rw [hidx] at e
  have hsingle : binAxisSamples ⟨0, 0, 1⟩ = ([0], 0) :=
    (h.2.2.2 ⟨0, 0, 1⟩ rfl).trans (by norm_num)
  rw [e, hsingle]
  norm_num

/-- A one-point cloud at temp 10 (detector 4, monitor 2, time 6): for the grid
cell at the origin with unit steps, the first four axis windows keep the
point, but the temp window [-1/2, 1/2] is empty. -/
def cexData : Data := ⟨[[0, 0, 0, 0, 10]], [4], [2], [6], 2, 6, false⟩

theorem cexStepGen (c0 c1 : Nat) (j : Nat)
    (hrow : List.getD [0, 0, 0, 0, (10 : ℚ)] j 0 = 0)
    (hstep : List.getD [1, 1, 1, 1, (1 : ℚ)] j 0 = 1)
    (hcell : List.getD [0, 0, 0, 0, (0 : ℚ)] j 0 = 0) :
    binCellStep [0, 0, 0, 0, 0] [1, 1, 1, 1, 1]
      ⟨[[0, 0, 0, 0, 10]], [2], [4], [6], c0, c1⟩ j =
      ⟨[[0, 0, 0, 0, 10]], [2], [4], [6], 0, 1⟩ := by
  have hs : cellSorted j ⟨[[0, 0, 0, 0, 10]], [2], [4], [6], c0, c1⟩ =
      ⟨[[0, 0, 0, 0, 10]], [2], [4], [6], c0, c1⟩ := rfl
  have hlo : chunkLo [0, 0, 0, 0, 0] [1, 1, 1, 1, 1] j [[0, 0, 0, 0, 10]] = 0 := by
    rw [chunkLo, List.countP_cons, List.countP_nil, hrow, hcell, hstep]
    norm_num
  have hhi : chunkHi [0, 0, 0, 0, 0] [1, 1, 1, 1, 1] j [[0, 0, 0, 0, 10]] = 1 := by
    rw [chunkHi, List.countP_cons, List.countP_nil, hrow, hcell, hstep]
    norm_num
  rw [binCellStep, hs]
  dsimp only
  rw [hlo, hhi, if_pos (by norm_num)]
  rfl

theorem cexLo4 : chunkLo [0, 0, 0, 0, 0] [1, 1, 1, 1, 1] 4 [[0, 0, 0, 0, 10]] = 0 := by
  rw [chunkLo, List.countP_cons, List.countP_nil]
  norm_num

theorem cexHi4 : chunkHi [0, 0, 0, 0, 0] [1, 1, 1, 1, 1] 4 [[0, 0, 0, 0, 10]] = 0 := by
  rw [chunkHi, List.countP_cons, List.countP_nil]
  norm_num

theorem cexStep4 (c0 c1 : Nat) :
    binCellStep [0, 0, 0, 0, 0] [1, 1, 1, 1, 1]
      ⟨[[0, 0, 0, 0, 10]], [2], [4], [6], c0, c1⟩ 4 =
      ⟨[[0, 0, 0, 0, 10]], [2], [4], [6], 0, 0⟩ := by
  have hs : cellSorted 4 ⟨[[0, 0, 0, 0, 10]], [2], [4], [6], c0, c1⟩ =
      ⟨[[0, 0, 0, 0, 10]], [2], [4], [6], c0, c1⟩ := rfl
  rw [binCellStep, hs]
  dsimp only
  rw [cexLo4, cexHi4, if_neg (by norm_num)]

theorem cexFold :
    (List.range 5).foldl (binCellStep [0, 0, 0, 0, 0] [1, 1, 1, 1, 1])
      ⟨cexData.Q, cexData.monitor, cexData.detector, cexData.time, 0, 0⟩ =
      ⟨[[0, 0, 0, 0, 10]], [2], [4], [6], 0, 0⟩ := by
  have h5 : List.range 5 = [0, 1, 2, 3, 4] := rfl
  have hinit : (⟨cexData.Q, cexData.monitor, cexData.detector, cexData.time, 0, 0⟩ :
      CellState) = ⟨[[0, 0, 0, 0, 10]], [2], [4], [6], 0, 0⟩ := rfl
  rw [h5, hinit, List.foldl_cons, cexStepGen 0 0 0 rfl rfl rfl,
    List.foldl_cons, cexStepGen 0 1 1 rfl rfl rfl,
    List.foldl_cons, cexStepGen 0 1 2 rfl rfl rfl,
    List.foldl_cons, cexStepGen 0 1 3 rfl rfl rfl,
    List.foldl_cons, cexStep4 0 1, List.foldl_nil]

/-- C5 counterexample: on the one-point cloud cexData the origin cell keeps
the point through the h, k, l, e axes, the temp window is empty, and the cell
averages of _bin_parallel come out as averages of an empty slice (NaN,
modelled none), not as the averages (2, 4, 6) over the retained non-empty
one-point subset that the claim asserts. -/
theorem bin_empty_window_counterexample :
    binCell cexData [1, 1, 1, 1, 1] [0, 0, 0, 0, 0] = (none, none, none) ∧
    (npAverage cexData.monitor, npAverage cexData.detector, npAverage cexData.time) =
      (some 2, some 4, some 6) ∧
    ((none, none, none) : Option ℚ × Option ℚ × Option ℚ) ≠ (some 2, some 4, some 6) := by
  refine ⟨?_, ?_, by simp⟩
  · rw [binCell, cexFold]
    rfl
  · show (npAverage [2], npAverage [4], npAverage [6]) = _
    norm_num [npAverage]

/-- C5 amended: when the half-step window on an axis yields an empty range,
the subset narrowing is skipped, so the working subset survives to the next
axis only reordered by that axis sort (first conjunct); but the final cell
averages are taken over the slice [chunk0:chunk1) of the final arrays with
the bounds found at the last (temp) axis, so when the temp window is empty
the averages are over an empty slice, NaN, and not over the retained subset
(second conjunct). -/
theorem bin_empty_window_retention (cell : QRow) (qstep : List ℚ) (st : CellState)
    (j : Nat) (d : Data) :
    (chunkHi cell qstep j (cellSorted j st).Q ≤ chunkLo cell qstep j (cellSorted j st).Q →
      ∃ ord : List Nat, ord.Perm (List.range st.Q.length) ∧
        (binCellStep cell qstep st j).Q = applyOrder [] ord st.Q ∧
        (binCellStep cell qstep st j).mon = applyOrder 0 ord st.mon ∧
        (binCellStep cell qstep st j).det = applyOrder 0 ord st.det ∧
        (binCellStep cell qstep st j).tim = applyOrder 0 ord st.tim) ∧
    (((List.range 5).foldl (binCellStep cell qstep)
          ⟨d.Q, d.monitor, d.detector, d.time, 0, 0⟩).c1 ≤
        ((List.range 5).foldl (binCellStep cell qstep)
          ⟨d.Q, d.monitor, d.detector, d.time, 0, 0⟩).c0 →
      binCell d qstep cell = (none, none, none)) := by
  constructor
  · intro hempty
    refine ⟨npLexsortIdx (rotCols j) st.Q, npLexsortIdx_perm _ _, ?_, ?_, ?_, ?_⟩ <;>
      rw [binCellStep, if_neg (Nat.not_lt.mpr hempty)] <;> rfl
  · intro hle
    have hsl : ∀ l : List ℚ, sliceList
        ((List.range 5).foldl (binCellStep cell qstep)
          ⟨d.Q, d.monitor, d.detector, d.time, 0, 0⟩).c0
        ((List.range 5).foldl (binCellStep cell qstep)
          ⟨d.Q, d.monitor, d.detector, d.time, 0, 0⟩).c1 l = [] := by
      intro l
      rw [sliceList, Nat.sub_eq_zero_of_le hle, List.take_zero]
    rw [binCell]
    dsimp only
    rw [hsl, hsl, hsl]
    rfl

/-- C5 amended witness: the two clauses at the concrete one-point cloud, with
the empty temp window at axis 4: the subset is retained by the step (here a
singleton, so the reorder is the identity permutation), while the final cell
averages are the empty-slice NaN triple. -/
theorem bin_empty_window_retention_witness :
    (∃ ord : List Nat, ord.Perm (List.range 1) ∧
      (binCellStep [0, 0, 0, 0, 0] [1, 1, 1, 1, 1]
          ⟨[[0, 0, 0, 0, 10]], [2], [4], [6], 0, 1⟩ 4).Q =
        applyOrder [] ord [[0, 0, 0, 0, 10]] ∧
      (binCellStep [0, 0, 0, 0, 0] [1, 1, 1, 1, 1]
          ⟨[[0, 0, 0, 0, 10]], [2], [4], [6], 0, 1⟩ 4).mon =
        applyOrder 0 ord [2] ∧
      (binCellStep [0, 0, 0, 0, 0] [1, 1, 1, 1, 1]
          ⟨[[0, 0, 0, 0, 10]], [2], [4], [6], 0, 1⟩ 4).det =
        applyOrder 0 ord [4] ∧
      (binCellStep [0, 0, 0, 0, 0] [1, 1, 1, 1, 1]
          ⟨[[0, 0, 0, 0, 10]], [2], [4], [6], 0, 1⟩ 4).tim =
        applyOrder 0 ord [6]) ∧
    binCell cexData [1, 1, 1, 1, 1] [0, 0, 0, 0, 0] = (none, none, none) := by
  have h := bin_empty_window_retention [0, 0, 0, 0, 0] [1, 1, 1, 1, 1]
    ⟨[[0, 0, 0, 0, 10]], [2], [4], [6], 0, 1⟩ 4 cexData
  refine ⟨h.1 ?_, h.2 ?_⟩
  · have hs : (cellSorted 4 ⟨[[0, 0, 0, 0, 10]], [2], [4], [6], 0, 1⟩).Q =
        [[0, 0, 0, 0, 10]] := rfl
    rw [hs, cexLo4, cexHi4]
  · rw [cexFold]

/-- np.trapz(y, x=x): the 1-D trapezoidal integral, the sum over consecutive
pairs of (x2 - x1) * (y1 + y2) / 2; fewer than two points integrate to 0. -/
def trapz : List ℚ → List ℚ → ℚ
  | y1 :: y2 :: ys, x1 :: x2 :: xs => (x2 - x1) * (y1 + y2) / 2 + trapz (y2 :: ys) (x2 :: xs)
  | _, _ => 0

/-- Column i of the Q matrix, self.Q[:, i]. -/
def colQ (Q : List QRow) (i : Nat) : List ℚ := Q.map fun r => r.getD i 0

/-- Fancy indexing arr[np.where(mask)]: the entries at the positions where the
boolean mask holds, kept in order. -/
def maskFilter {α : Type} (mask : List Bool) (l : List α) : List α :=
  ((mask.zip l).filter fun p => p.1).map fun p => p.2

/-- The accumulation loop of Data.integrate (core.py lines 606-613) given the
resolved background value: over the first four columns of Q (temp excluded),
sum the trapezoidal integral of intensity minus background against that
column, with all arrays first restricted by the bounds mask when one is
given. -/
def integrateVal (d : Data) (bounds : Option (List Bool)) (bg : ℚ) : ℚ :=
  (List.range 4).foldl (fun acc i =>
    acc + trapz
      ((match bounds with
        | some mask => maskFilter mask d.intensity
        | none => d.intensity).map fun y => y - bg)
      (match bounds with
        | some mask => maskFilter mask (colQ d.Q i)
        | none => colQ d.Q i)) 0

/-- Data.integrate (core.py lines 585-615): the background is bg_estimate of
the background keyword when given, else 0 (an error from bg_estimate, such as
the broken percent branch, propagates); the bounds keyword is the boolean
mask restricting the points. -/
def Data.integrate (d : Data) (bounds : Option (List Bool))
    (background : Option BgParams) : Except String ℚ :=
  match background with
  | some p => (d.bg_estimate p).map fun bg => integrateVal d bounds bg
  | none => .ok (integrateVal d bounds 0)

theorem map_sub_zero (l : List ℚ) : (l.map fun y => y - (0 : ℚ)) = l := by
  have h : (fun y => y - (0 : ℚ)) = fun y : ℚ => y := by
    funext y
    rw [sub_zero]
  rw [h, List.map_id']

/-- C6: integrate with no mask and no background returns the sum over the four
axes h, k, l, e (temp excluded) of the trapezoidal integral of the intensity,
minus a background of zero, against that axis's Q column; with a background
policy the subtracted value is bg_estimate of that policy; with a boolean
mask all arrays are first restricted to the points where the mask holds. -/
theorem integrate_trapz_sum (d : Data) (mask : List Bool) (p : BgParams) (bg : ℚ)
    (hbg : d.bg_estimate p = .ok bg) :
    (d.integrate none none = .ok
      (trapz d.intensity (colQ d.Q 0) + trapz d.intensity (colQ d.Q 1) +
        trapz d.intensity (colQ d.Q 2) + trapz d.intensity (colQ d.Q 3))) ∧
    (d.integrate none (some p) = .ok
      (trapz (d.intensity.map fun y => y - bg) (colQ d.Q 0) +
        trapz (d.intensity.map fun y => y - bg) (colQ d.Q 1) +
        trapz (d.intensity.map fun y => y - bg) (colQ d.Q 2) +
        trapz (d.intensity.map fun y => y - bg) (colQ d.Q 3))) ∧
    (d.integrate (some mask) none = .ok
      (trapz (maskFilter mask d.intensity) (maskFilter mask (colQ d.Q 0)) +
        trapz (maskFilter mask d.intensity) (maskFilter mask (colQ d.Q 1)) +
        trapz (maskFilter mask d.intensity) (maskFilter mask (colQ d.Q 2)) +
        trapz (maskFilter mask d.intensity) (maskFilter mask (colQ d.Q 3)))) ∧
    (d.integrate (some mask) (some p) = .ok
      (trapz ((maskFilter mask d.intensity).map fun y => y - bg)
          (maskFilter mask (colQ d.Q 0)) +
        trapz ((maskFilter mask d.intensity).map fun y => y - bg)
          (maskFilter mask (colQ d.Q 1)) +
        trapz ((maskFilter mask d.intensity).map fun y => y - bg)
          (maskFilter mask (colQ d.Q 2)) +
        trapz ((maskFilter mask d.intensity).map fun y => y - bg)
          (maskFilter mask (colQ d.Q 3)))) := by
  have hval : ∀ (bounds : Option (List Bool)) (b : ℚ),
      integrateVal d bounds b =
        trapz ((match bounds with
            | some m => maskFilter m d.intensity
            | none => d.intensity).map fun y => y - b)
          (match bounds with
            | some m => maskFilter m (colQ d.Q 0)
            | none => colQ d.Q 0) +
        trapz ((match bounds with
            | some m => maskFilter m d.intensity
            | none => d.intensity).map fun y => y - b)
          (match bounds with
            | some m => maskFilter m (colQ d.Q 1)
            | none => colQ d.Q 1) +
        trapz ((match bounds with
            | some m => maskFilter m d.intensity
            | none => d.intensity).map fun y => y - b)
          (match bounds with
            | some m => maskFilter m (colQ d.Q 2)
            | none => colQ d.Q 2) +
        trapz ((match bounds with
            | some m => maskFilter m d.intensity
            | none => d.intensity).map fun y => y - b)
          (match bounds with
            | some m => maskFilter m (colQ d.Q 3)
            | none => colQ d.Q 3) := by
    intro bounds b
    cases bounds with
    | none =>
        show 0 + _ + _ + _ + _ = _
        rw [zero_add]
    | some m =>
        show 0 + _ + _ + _ + _ = _
        rw [zero_add]
  refine ⟨?_, ?_, ?_, ?_⟩
  · have h1 : d.integrate none none = .ok (integrateVal d none 0) := rfl
    rw [h1, hval none 0]
    rw [map_sub_zero]
  · have h2 : d.integrate none (some p) =
        (d.bg_estimate p).map fun b => integrateVal d none b := rfl
    rw [h2, hbg]
    show Except.ok (integrateVal d none bg) = _
    rw [hval none bg]
  · have h3 : d.integrate (some mask) none = .ok (integrateVal d (some mask) 0) := rfl
    rw [h3, hval (some mask) 0]
    rw [map_sub_zero]
  · have h4 : d.integrate (some mask) (some p) =
        (d.bg_estimate p).map fun b => integrateVal d (some mask) b := rfl
    rw [h4, hbg]
    show Except.ok (integrateVal d (some mask) bg) = _
    rw [hval (some mask) bg]

/-- C6 witness: the theorem at the concrete cloud negCloud with the constant
background 5 and the mask [true, false]. -/
theorem integrate_trapz_sum_witness :
    negCloud.integrate none none = .ok
      (trapz negCloud.intensity (colQ negCloud.Q 0) +
        trapz negCloud.intensity (colQ negCloud.Q 1) +
        trapz negCloud.intensity (colQ negCloud.Q 2) +
        trapz negCloud.intensity (colQ negCloud.Q 3)) ∧
    negCloud.integrate (some [true, false]) (some ⟨"constant", 5⟩) = .ok
      (trapz ((maskFilter [true, false] negCloud.intensity).map fun y => y - 5)
          (maskFilter [true, false] (colQ negCloud.Q 0)) +
        trapz ((maskFilter [true, false] negCloud.intensity).map fun y => y - 5)
          (maskFilter [true, false] (colQ negCloud.Q 1)) +
        trapz ((maskFilter [true, false] negCloud.intensity).map fun y => y - 5)
          (maskFilter [true, false] (colQ negCloud.Q 2)) +
        trapz ((maskFilter [true, false] negCloud.intensity).map fun y => y - 5)
          (maskFilter [true, false] (colQ negCloud.Q 3))) := by
  have h := integrate_trapz_sum negCloud [true, false] ⟨"constant", 5⟩ 5 rfl
  exact ⟨h.1, h.2.2.2⟩

end NeutronPy
